import Mathlib

/-!
Verification of the spatial-index layer of the boids repository.

The embedding models the C++ sources:
* `src/main.cpp` — `BinLattice<WIDTH, HEIGHT, BINS, BIN_SIZE>` (uniform grid index);
* `src/unnamed/part_002` / `src/src/geometry/spatial.hpp` — `Collection`,
  `RTree` and `SpatialHashing` backends plus the `Distance` predicate;
* `src/src/geometry/vector2.hpp` and the `Box` class — geometry primitives.

`float` arithmetic is idealised as exact rational arithmetic (`ℚ`); `size_t`
arithmetic keeps its wrap-around semantics modulo `2 ^ 64` where the source
relies on it; `int`→`uint` conversions keep their modulo-`2 ^ 32` semantics.
An operation whose C++ original performs an out-of-range array access (which
is undefined behaviour) is modelled as returning `none`.
-/

/-- 2D vector of rationals modelling `Vector2<float>` / `sf::Vector2f`
(float arithmetic idealised as exact). -/
structure Vec2 where
  x : ℚ
  y : ℚ
deriving DecidableEq, Repr

instance : Inhabited Vec2 := ⟨⟨0, 0⟩⟩

/-- `Vector2::operator-` from `geometry/vector2.hpp`. -/
def Vec2.sub (a b : Vec2) : Vec2 := ⟨a.x - b.x, a.y - b.y⟩

/-- `Vector2::lengthSquared` from `geometry/vector2.hpp`:
`x*x + y*y` (computed through doubles in the source; exact here). -/
def Vec2.lengthSquared (v : Vec2) : ℚ := v.x * v.x + v.y * v.y

/-- `Box<float>` (`Boxf`) from `geometry/box.hpp`: rectangle stored as
`left`, `top`, `width`, `height`. -/
structure Box where
  left : ℚ
  top : ℚ
  width : ℚ
  height : ℚ
deriving DecidableEq, Repr

/-- Modelled from the spec: `Box::merge` is called by
`Collection::updateBounds` and `SpatialHashing::updateBounds` but its
definition is absent from the sources (the `Box` class in `geometry/box.hpp`
has no `merge` member).  The spec describes `bounds()` as "incrementally
merged on insert" and `Box` as supporting "bounding-union", so `merge b p`
is the smallest axis-aligned box containing the box `b` and the point `p`. -/
def Box.merge (b : Box) (p : Vec2) : Box :=
  let l := min b.left p.x
  let t := min b.top p.y
  { left := l
    top := t
    width := max (b.left + b.width) p.x - l
    height := max (b.top + b.height) p.y - t }

/-- The spec's "exact bounding box" of a non-empty point set: the smallest
axis-aligned box containing all the points (stated from the spec's words,
for comparison with the backends' `bounds()`). -/
def exactBoundingBox (p : Vec2) (ps : List Vec2) : Box :=
  let l := (ps.map Vec2.x).foldl min p.x
  let t := (ps.map Vec2.y).foldl min p.y
  let r := (ps.map Vec2.x).foldl max p.x
  let b := (ps.map Vec2.y).foldl max p.y
  ⟨l, t, r - l, b - t⟩

/-- `struct Boid { sf::Vector2f position; }` from `src/main.cpp`. -/
structure Boid where
  position : Vec2
deriving DecidableEq, Repr

/-- `class Body` from `geometry/body.hpp` (position, velocity, mass);
only `position` is read by the spatial indexes. -/
structure Body where
  position : Vec2
  velocity : Vec2 := ⟨0, 0⟩
  mass : ℚ := 1
deriving DecidableEq, Repr

instance : Inhabited Body := ⟨⟨⟨0, 0⟩, ⟨0, 0⟩, 1⟩⟩

/-- `struct Distance` from `spatial.hpp`:
`(el.position - search).lengthSquared() < radius * radius`. -/
def DistancePred (search : Vec2) (radius : ℚ) : Body → Bool :=
  fun el => decide ((el.position.sub search).lengthSquared < radius * radius)

namespace BinLattice

/-- `size_t` arithmetic is modulo `2 ^ 64`. -/
def sizeTMod : ℕ := 2 ^ 64

/-- Cell index of one coordinate, from `BinLattice::addBoid` / `query`:
`static_cast<size_t>(pos / (DIM / BINS))` where `DIM / BINS` is `size_t`
integer division and the cast truncates the quotient (equals the floor for
non-negative values; a negative value cannot be represented, which is
undefined behaviour — the theorems only use non-negative coordinates). -/
def binIndex (DIM BINS : ℕ) (q : ℚ) : ℕ :=
  (⌊q / ((DIM / BINS : ℕ) : ℚ)⌋).toNat

/-- The lattice state: `bins x y` is the content of `lattice[x][y]` in
insertion order (its length is `bin.second`).  Only indices `< BINS` are
meaningful; out-of-range accesses are rejected by the operations. -/
structure State where
  bins : ℕ → ℕ → List Boid

/-- The fresh lattice built by the `BinLattice` constructor: every bin empty. -/
def emptyState : State := ⟨fun _ _ => []⟩

/-- `bin.second` of the bin targeted by inserting `b`, i.e. the index
`addBoid` writes at (`bin.first[bin.second++] = boid`). -/
def writeIndex (W H BINS : ℕ) (s : State) (b : Boid) : ℕ :=
  (s.bins (binIndex W BINS b.position.x) (binIndex H BINS b.position.y)).length

/-- `BinLattice::addBoid`: compute the cell of the boid's position and append
it to that bin.  The source performs `lattice[xIndex][yIndex]` and
`bin.first[bin.second++] = boid` with no range check; an out-of-range lattice
index or a full bin makes the write out of bounds (undefined behaviour),
modelled as `none`. -/
def addBoid (W H BINS CAP : ℕ) (s : State) (b : Boid) : Option State :=
  let xi := binIndex W BINS b.position.x
  let yi := binIndex H BINS b.position.y
  if xi < BINS ∧ yi < BINS ∧ (s.bins xi yi).length < CAP then
    some ⟨fun u v => if u = xi ∧ v = yi then s.bins u v ++ [b] else s.bins u v⟩
  else none

/-- Inserting a whole point set into the fresh lattice, one `addBoid` per
point (`for (auto& boid : boids) binLattice.addBoid(&boid);`). -/
def buildState (W H BINS CAP : ℕ) (bs : List Boid) : Option State :=
  bs.foldlM (addBoid W H BINS CAP) emptyState

/-- One scanned cell index of `BinLattice::query`:
`std::clamp(index + d, 0ul, BINS - 1)`.  `index + d` is `size_t` arithmetic,
so `d = -1` at `index = 0` wraps to `2 ^ 64 - 1` before clamping; the clamp
of an unsigned value against lower bound `0` is `min _ (BINS - 1)`. -/
def offsetClamp (BINS : ℕ) (i : ℕ) (d : ℤ) : ℕ :=
  min ((((i : ℤ) + d) % (sizeTMod : ℤ)).toNat) (BINS - 1)

/-- The nine cells examined by `BinLattice::query` for a given query
position, in the loop order of the source (`dx` outer, `dy` inner). -/
def scanCells (W H BINS : ℕ) (p : Vec2) : List (ℕ × ℕ) :=
  let xi := binIndex W BINS p.x
  let yi := binIndex H BINS p.y
  ([-1, 0, 1] : List ℤ).flatMap fun dx =>
    ([-1, 0, 1] : List ℤ).map fun dy => (offsetClamp BINS xi dx, offsetClamp BINS yi dy)

/-- `BinLattice::query`: scan the nine (clamped) cells and keep each boid
whose squared Euclidean distance to the query position is strictly below
`radius * radius`, in scan order (the source writes them into
`result.first[count++]`). -/
def query (W H BINS : ℕ) (s : State) (p : Vec2) (radius : ℚ) : List Boid :=
  (scanCells W H BINS p).flatMap fun c =>
    (s.bins c.1 c.2).filter fun b =>
      decide ((b.position.sub p).lengthSquared < radius * radius)

/-- Query against the lattice built from a point set (empty when some insert
already performed an out-of-range write). -/
def queryBuilt (W H BINS CAP : ℕ) (bs : List Boid) (p : Vec2) (radius : ℚ) : List Boid :=
  ((buildState W H BINS CAP bs).map fun s => query W H BINS s p radius).getD []

/-- The cell targeted by `addBoid` for a position (raw, unclamped). -/
def insertTargetCell (W H BINS : ℕ) (p : Vec2) : ℕ × ℕ :=
  (binIndex W BINS p.x, binIndex H BINS p.y)

/-- The centre cell (`dx = dy = 0`) examined by `query` for a position. -/
def queryCenterCell (W H BINS : ℕ) (p : Vec2) : ℕ × ℕ :=
  (offsetClamp BINS (binIndex W BINS p.x) 0, offsetClamp BINS (binIndex H BINS p.y) 0)

end BinLattice

namespace Collection

/-- The `Collection` (linear/baseline) backend: a plain vector of elements
plus the incrementally merged bounding box (`Collection() : box(0, 0, 0, 0)`). -/
structure State where
  box : Box
  elements : List Body
deriving Repr

/-- The freshly constructed `Collection`. -/
def init : State := ⟨⟨0, 0, 0, 0⟩, []⟩

/-- `Collection::insert`: `elements.push_back(data); updateBounds(data);`
where `updateBounds` does `box = box.merge(el.position)`. -/
def insert (s : State) (data : Body) : State :=
  ⟨s.box.merge data.position, s.elements ++ [data]⟩

/-- Insert a list of elements in order. -/
def insertAll (s : State) (bs : List Body) : State := bs.foldl insert s

/-- `Collection::bounds`. -/
def bounds (s : State) : Box := s.box

/-- The loop of `Collection::query`: for each element, if the predicate
holds then `if (count++ >= maxClosest) break;` else push it. The counter
advances only on elements satisfying the predicate. -/
def queryLoop (pred : Body → Bool) : List Body → ℕ → ℕ → List Body
  | [], _, _ => []
  | e :: es, maxClosest, count =>
    if pred e then
      if maxClosest ≤ count then []
      else e :: queryLoop pred es maxClosest (count + 1)
    else queryLoop pred es maxClosest count

/-- `Collection::query(pred, maxClosest)`. -/
def query (s : State) (pred : Body → Bool) (maxClosest : ℕ) : List Body :=
  queryLoop pred s.elements maxClosest 0

end Collection

namespace RTree

/-- The `RTree` backend state: the multiset of stored values (boost's
internal tree layout is irrelevant to the claims settled here). -/
structure State where
  elements : List Body
deriving Repr

/-- The freshly constructed `RTree`. -/
def init : State := ⟨[]⟩

/-- `RTree::insert`. -/
def insert (s : State) (data : Body) : State := ⟨s.elements ++ [data]⟩

/-- Insert a list of elements in order. -/
def insertAll (s : State) (bs : List Body) : State := bs.foldl insert s

/-- `RTree::bounds` from `spatial.hpp` line 219: `return Boxf(0, 0, 0, 0);`
— a constant, independent of the stored elements. -/
def bounds (_ : State) : Box := ⟨0, 0, 0, 0⟩

end RTree

namespace SpatialHashing

/-- `uint cellSize = 50;` from `SpatialHashing`. -/
def cellSize : ℕ := 50

/-- `uint pivotTableSize = 1000;` from `SpatialHashing`. -/
def pivotTableSize : ℕ := 1000

/-- `int`→`uint` conversion: value modulo `2 ^ 32` (signed overflow in the
multiplication wraps the same way on the reference platform). -/
def u32 (z : ℤ) : ℕ := (z % (2 ^ 32)).toNat

/-- `SpatialHashing::hash`:
`static_cast<uint>(coord.x * 15823) ^ static_cast<uint>(coord.y * 9737333)`. -/
def hashCoord (c : ℤ × ℤ) : ℕ := Nat.xor (u32 (c.1 * 15823)) (u32 (c.2 * 9737333))

/-- `SpatialHashing::getCellCoordinates`:
`int2(std::floor(pos.x / cellSize), std::floor(pos.y / cellSize))`. -/
def getCellCoordinates (pos : Vec2) : ℤ × ℤ :=
  (⌊pos.x / (cellSize : ℚ)⌋, ⌊pos.y / (cellSize : ℚ)⌋)

/-- `SpatialHashing::getCellIndex`: `hash(coord) % pivotTableSize`. -/
def getCellIndex (c : ℤ × ℤ) : ℕ := hashCoord c % pivotTableSize

/-- The bucket an element belongs to: `getCellIndex(getCellCoordinates(position))`. -/
def bucketOf (e : Body) : ℕ := getCellIndex (getCellCoordinates e.position)

/-- The `SpatialHashing` state: bounds box, element vector, and the three
auxiliary vectors filled by `update()`. -/
structure State where
  box : Box
  elements : List Body
  shuffler : List ℕ
  hashtable : List ℕ
  pivots : List ℕ
deriving Repr

/-- `SpatialHashing(uint width, uint height) : box(0, 0, width, height)`;
the vectors start empty. -/
def init (width height : ℚ) : State := ⟨⟨0, 0, width, height⟩, [], [], [], []⟩

/-- `SpatialHashing::insert`: `elements.push_back(data); updateBounds(data);`. -/
def insert (s : State) (data : Body) : State :=
  { s with elements := s.elements ++ [data], box := s.box.merge data.position }

/-- Insert a list of elements in order. -/
def insertAll (s : State) (bs : List Body) : State := bs.foldl insert s

/-- `SpatialHashing::clear`: `elements.clear();` (the other vectors keep
their stale contents). -/
def clear (s : State) : State := { s with elements := [] }

/-- `SpatialHashing::bounds`. -/
def bounds (s : State) : Box := s.box

/-- `pivots[i]++` on a vector of naturals (`i < pivotTableSize` always holds
for bucket indices, so the write is in range). -/
def incAt (l : List ℕ) (i : ℕ) : List ℕ := l.set i (l.getD i 0 + 1)

/-- Counting pass of `update()`: start from `pivotTableSize` zeros and
increment the bucket of each element. -/
def countsOf (elems : List Body) : List ℕ :=
  elems.foldl (fun piv e => incAt piv (bucketOf e)) (List.replicate pivotTableSize 0)

/-- Prefix pass of `update()`: `pivot = start; start += usage;` over the
counts, i.e. exclusive running sums starting from `s`. -/
def startOffsets : ℕ → List ℕ → List ℕ
  | _, [] => []
  | s, c :: cs => s :: startOffsets (s + c) cs

/-- One step of the scatter pass of `update()`:
`auto index = pivots[getCellIndex(...)]++; hashtable[index] = i;` —
the accumulator is the pair (write cursors, hashtable). -/
def scatterStep (acc : List ℕ × List ℕ) (ie : ℕ × Body) : List ℕ × List ℕ :=
  let b := bucketOf ie.2
  let idx := acc.1.getD b 0
  (acc.1.set b (idx + 1), acc.2.set idx ie.1)

/-- The scatter pass over all elements (indices in insertion order: the
source's outer counter `i` is untouched by the shadowed loop variable of the
`hashtable.push_back(0)` loop). -/
def scatter (elems : List Body) (cursors ht : List ℕ) : List ℕ × List ℕ :=
  elems.enum.foldl scatterStep (cursors, ht)

/-- `SpatialHashing::update`.  The shuffled index vector is stored in
`shuffler` but read by nothing afterwards (the fill loop iterates `elements`
directly), so it is a parameter `σ` recorded verbatim.  The final
repositioning (`pivots.push_back(pivots.back())`, shift every entry one slot
to the right, `pivots[0] = 0`) amounts to prepending `0` to the cursor
vector left by the scatter pass. -/
def update (s : State) (σ : List ℕ) : State :=
  let counts := countsOf s.elements
  let starts := startOffsets 0 counts
  let scat := scatter s.elements starts (List.replicate s.elements.length 0)
  { s with shuffler := σ, hashtable := scat.2, pivots := 0 :: scat.1 }

/-- The hashtable slots of bucket `b`: `[pivots[b], pivots[b+1])`. -/
def bucketSlice (s : State) (b : ℕ) : List ℕ :=
  (s.hashtable.drop (s.pivots.getD b 0)).take (s.pivots.getD (b + 1) 0 - s.pivots.getD b 0)

/-- The element indices scanned by `query` for a position: the hashtable
entries of the position's bucket. -/
def scannedIndices (s : State) (pos : Vec2) : List ℕ :=
  bucketSlice s (getCellIndex (getCellCoordinates pos))

/-- The elements scanned by `query` for a position:
`elements[hashtable[i]]` for `i` in the bucket's range. -/
def scannedElems (s : State) (pos : Vec2) : List Body :=
  (scannedIndices s pos).map fun j => s.elements.getD j default

/-- The loop of `SpatialHashing::query`:
`if (count++ >= maxClosest) break; if (pred(...)) result.push_back(...)` —
the counter advances on every scanned element, matching or not. -/
def queryLoop (pred : Body → Bool) : List Body → ℕ → ℕ → List Body
  | [], _, _ => []
  | e :: es, maxClosest, count =>
    if maxClosest ≤ count then []
    else if pred e then e :: queryLoop pred es maxClosest (count + 1)
    else queryLoop pred es maxClosest (count + 1)

/-- `SpatialHashing::query(element, pred, maxClosest)` under the in-range
regime (every index access resolved with `getD`). -/
def query (s : State) (element : Body) (pred : Body → Bool) (maxClosest : ℕ) : List Body :=
  queryLoop pred (scannedElems s element.position) maxClosest 0

/-- The loop of `SpatialHashing::query` with every array access checked:
`hashtable[i]` and `elements[hashtable[i]]` return `none` when out of range
(the undefined behaviour of the C++ original).  The cap check happens before
the accesses, as in the source. -/
def queryLoopChecked (s : State) (pred : Body → Bool) :
    List ℕ → ℕ → ℕ → Option (List Body)
  | [], _, _ => some []
  | i :: is, maxClosest, count =>
    if maxClosest ≤ count then some []
    else do
      let j ← s.hashtable.get? i
      let e ← s.elements.get? j
      let rest ← queryLoopChecked s pred is maxClosest (count + 1)
      pure (if pred e then e :: rest else rest)

/-- `SpatialHashing::query` with checked accesses: `pivots[pivot_index]`,
`pivots[pivot_index + 1]`, and every loop access must be in range. -/
def queryChecked (s : State) (element : Body) (pred : Body → Bool) (maxClosest : ℕ) :
    Option (List Body) := do
  let pi ← pure (getCellIndex (getCellCoordinates element.position))
  let start ← s.pivots.get? pi
  let stop ← s.pivots.get? (pi + 1)
  queryLoopChecked s pred (List.range' start (stop - start)) maxClosest 0

end SpatialHashing

namespace SpatialHashing

/-- Number of stored elements whose bucket is `b` (specification-side count
used to characterise the counting pass). -/
def cnt (elems : List Body) (b : ℕ) : ℕ := elems.countP fun e => bucketOf e == b

/-- Start offset of bucket `b` in the flat hashtable: the number of elements
in buckets `< b`. -/
def bucketStart (elems : List Body) (b : ℕ) : ℕ := ((List.range b).map (cnt elems)).sum

/-- The element indices of bucket `b`, in insertion order. -/
def bucketIndices (elems : List Body) (b : ℕ) : List ℕ :=
  (List.range elems.length).filter fun i => bucketOf (elems.getD i default) == b

end SpatialHashing

namespace BinLattice

lemma offsetClamp_zero (BINS i : ℕ) (hi : i < sizeTMod) :
    offsetClamp BINS i 0 = min i (BINS - 1) := by
  unfold offsetClamp
  rw [add_zero, Int.emod_eq_of_lt (Int.natCast_nonneg i) (by exact_mod_cast hi)]
  simp

end BinLattice

/-- C4: the claim says `query` clamps out-of-range cell indices to the grid
edge with no wraparound, never scanning a cell on the opposite side of the
grid.  In the code `xIndex + dx` is `size_t` arithmetic, so at an edge cell
(`xIndex = 0`, `dx = -1`) the sum wraps to `2^64 - 1` before `std::clamp`,
which then clamps it to `BINS - 1 = 19`: the query *does* scan the
opposite-side column.  Evaluated at the failing input: query position
`(25, 500)` lies in edge cell `(0, 10)`, and the scanned cells include the
opposite-edge column `19` instead of a duplicate of column `0`. -/
theorem C4_wraparound :
    BinLattice.insertTargetCell 1000 1000 20 ⟨25, 500⟩ = (0, 10) ∧
    BinLattice.scanCells 1000 1000 20 ⟨25, 500⟩ =
      [(19, 9), (19, 10), (19, 11), (0, 9), (0, 10), (0, 11), (1, 9), (1, 10), (1, 11)] ∧
    (19, 10) ∈ BinLattice.scanCells 1000 1000 20 ⟨25, 500⟩ := by
  with_unfolding_all decide

/-- C9 counterexample: for the out-of-bounds position `(1500, 500)` the
insert path targets the raw cell `(30, 10)` (an out-of-range lattice
access), while the query path's centre cell is clamped to `(19, 10)` — the
two paths do not apply the same policy, contradicting the claim. -/
theorem C9_counterexample :
    BinLattice.insertTargetCell 1000 1000 20 ⟨1500, 500⟩ = (30, 10) ∧
    BinLattice.queryCenterCell 1000 1000 20 ⟨1500, 500⟩ = (19, 10) ∧
    BinLattice.insertTargetCell 1000 1000 20 ⟨1500, 500⟩ ≠
      BinLattice.queryCenterCell 1000 1000 20 ⟨1500, 500⟩ := by
  with_unfolding_all decide

/-- C9 (amended): the insert and query paths of the grid do *not* apply one
common policy to out-of-bounds positions.  The query clamps its centre cell
to the grid edge; the insert uses the raw unclamped cell, and for a position
whose raw cell index is out of range the insert is an out-of-range lattice
access (modelled `none`).  The two paths agree exactly on positions whose
raw cell indices are within the grid. -/
theorem C9_policy (W H BINS CAP : ℕ) (p : Vec2) (hB : 0 < BINS)
    (hx64 : BinLattice.binIndex W BINS p.x < BinLattice.sizeTMod)
    (hy64 : BinLattice.binIndex H BINS p.y < BinLattice.sizeTMod) :
    BinLattice.queryCenterCell W H BINS p =
      (min (BinLattice.binIndex W BINS p.x) (BINS - 1),
       min (BinLattice.binIndex H BINS p.y) (BINS - 1)) ∧
    (BinLattice.insertTargetCell W H BINS p = BinLattice.queryCenterCell W H BINS p ↔
      BinLattice.binIndex W BINS p.x < BINS ∧ BinLattice.binIndex H BINS p.y < BINS) ∧
    (∀ (s : BinLattice.State) (b : Boid),
      BINS ≤ BinLattice.binIndex W BINS b.position.x ∨
        BINS ≤ BinLattice.binIndex H BINS b.position.y →
      BinLattice.addBoid W H BINS CAP s b = none) := by
  have hq : BinLattice.queryCenterCell W H BINS p =
      (min (BinLattice.binIndex W BINS p.x) (BINS - 1),
       min (BinLattice.binIndex H BINS p.y) (BINS - 1)) := by
    unfold BinLattice.queryCenterCell
    rw [BinLattice.offsetClamp_zero _ _ hx64, BinLattice.offsetClamp_zero _ _ hy64]
  refine ⟨hq, ?_, ?_⟩
  · rw [hq]
    unfold BinLattice.insertTargetCell
    constructor
    · intro h
      have h1 := congrArg Prod.fst h
      have h2 := congrArg Prod.snd h
      simp only [] at h1 h2
      omega
    · intro ⟨h1, h2⟩
      simp only [Prod.mk.injEq]
      omega
  · intro s b h
    unfold BinLattice.addBoid
    rw [if_neg]
    intro ⟨h1, h2, _⟩
    omega

/-- C9 witness: the amended statement applied at the concrete out-of-bounds
position `(1500, 500)` on the program's lattice configuration. -/
theorem C9_policy_witness :
    BinLattice.insertTargetCell 1000 1000 20 ⟨1500, 500⟩ =
        BinLattice.queryCenterCell 1000 1000 20 ⟨1500, 500⟩ ↔
      BinLattice.binIndex 1000 20 (1500 : ℚ) < 20 ∧
      BinLattice.binIndex 1000 20 (500 : ℚ) < 20 :=
  (C9_policy 1000 1000 20 100 ⟨1500, 500⟩ (by decide)
    (by with_unfolding_all decide) (by with_unfolding_all decide)).2.1

/-- C3 counterexample, evaluated on a bin of capacity `2` that already holds
its `2` elements (cell `(0, 0)` of the `1000×1000`, `20`-bin lattice):
inserting a third element of that cell attempts the write
`bin.first[bin.second++]` at index `2` — equal to the capacity, i.e. out of
the bin's bounds (modelled `none`); no `CapacityExceeded` condition exists
anywhere in the code. -/
theorem C3_counterexample :
    ((BinLattice.buildState 1000 1000 20 2 [⟨⟨1, 1⟩⟩, ⟨⟨2, 2⟩⟩]).map fun s =>
        (BinLattice.writeIndex 1000 1000 20 s ⟨⟨3, 3⟩⟩,
         (BinLattice.addBoid 1000 1000 20 2 s ⟨⟨3, 3⟩⟩).isSome)) = some (2, false) := by
  with_unfolding_all decide

/-- C3 (amended): inserting into a bin already holding at least its capacity
performs the write `bin.first[bin.second++]` at an index that is not below
the capacity, i.e. out of the bin's bounds (undefined behaviour, modelled
`none`); the code raises no `CapacityExceeded` — no error channel exists. -/
theorem C3_overflow (W H BINS CAP : ℕ) (s : BinLattice.State) (b : Boid)
    (hfull : CAP ≤ BinLattice.writeIndex W H BINS s b) :
    BinLattice.addBoid W H BINS CAP s b = none ∧
    ¬ BinLattice.writeIndex W H BINS s b < CAP := by
  unfold BinLattice.writeIndex at hfull
  refine ⟨?_, by unfold BinLattice.writeIndex; omega⟩
  unfold BinLattice.addBoid
  rw [if_neg]
  intro ⟨_, _, hlt⟩
  omega

/-- C3 witness: the amended statement applied to the concrete full bin of
`C3_counterexample`. -/
theorem C3_overflow_witness :
    BinLattice.addBoid 1000 1000 20 2
        ⟨fun u v => if u = 0 ∧ v = 0 then [⟨⟨1, 1⟩⟩, ⟨⟨2, 2⟩⟩] else []⟩ ⟨⟨3, 3⟩⟩ = none ∧
    ¬ BinLattice.writeIndex 1000 1000 20
        ⟨fun u v => if u = 0 ∧ v = 0 then [⟨⟨1, 1⟩⟩, ⟨⟨2, 2⟩⟩] else []⟩ ⟨⟨3, 3⟩⟩ < 2 :=
  C3_overflow 1000 1000 20 2 _ _ (by with_unfolding_all decide)

lemma foldl_merge_corner (ps : List Vec2) : ∀ l t r b : ℚ,
    ps.foldl Box.merge ⟨l, t, r - l, b - t⟩ =
      ⟨(ps.map Vec2.x).foldl min l, (ps.map Vec2.y).foldl min t,
       (ps.map Vec2.x).foldl max r - (ps.map Vec2.x).foldl min l,
       (ps.map Vec2.y).foldl max b - (ps.map Vec2.y).foldl min t⟩ := by
  induction ps with
  | nil => intro l t r b; simp
  | cons p ps ih =>
    intro l t r b
    simp only [List.foldl_cons, List.map_cons]
    have hm : Box.merge ⟨l, t, r - l, b - t⟩ p =
        ⟨min l p.x, min t p.y, max r p.x - min l p.x, max b p.y - min t p.y⟩ := by
      unfold Box.merge
      simp [add_sub_cancel]
    rw [hm, ih]

lemma Collection.insertAll_box_eq (s : Collection.State) (bs : List Body) :
    (Collection.insertAll s bs).box =
      (bs.map (fun e => e.position)).foldl Box.merge s.box := by
  induction bs generalizing s with
  | nil => rfl
  | cons e bs ih => simpa [Collection.insertAll, Collection.insert] using ih _

lemma SpatialHashing.insertAll_box_merge (s : SpatialHashing.State) (bs : List Body) :
    (SpatialHashing.insertAll s bs).box =
      (bs.map (fun e => e.position)).foldl Box.merge s.box := by
  induction bs generalizing s with
  | nil => rfl
  | cons e bs ih => simpa [SpatialHashing.insertAll, SpatialHashing.insert] using ih _

/-- C8 counterexample: insert the single point `(5, 5)` into the tree
backend.  `RTree::bounds` (spatial.hpp line 219) returns the constant
`Boxf(0, 0, 0, 0)`, which is not the exact bounding box `(5, 5, 0, 0)` of
the inserted point set — the claim fails for the tree backend. -/
theorem C8_counterexample :
    RTree.bounds (RTree.insert RTree.init ⟨⟨5, 5⟩, ⟨0, 0⟩, 1⟩) = ⟨0, 0, 0, 0⟩ ∧
    exactBoundingBox ⟨5, 5⟩ [] = ⟨5, 5, 0, 0⟩ ∧
    (⟨0, 0, 0, 0⟩ : Box) ≠ (⟨5, 5, 0, 0⟩ : Box) := by
  with_unfolding_all decide

/-- C8 (amended): the tree backend's `bounds()` is the constant zero box
regardless of the inserted points; the linear backend's `bounds()` equals
the exact bounding box of the inserted points *together with the origin*
(the fold of the spec-modelled `Box::merge` starts from the constructor's
`box(0, 0, 0, 0)`), not of the points alone; and the hash backend's
`bounds()` stays at its configured world rectangle as long as every
inserted position lies inside that rectangle. -/
theorem C8_bounds :
    (∀ bs : List Body, RTree.bounds (RTree.insertAll RTree.init bs) = ⟨0, 0, 0, 0⟩) ∧
    (∀ bs : List Body,
      Collection.bounds (Collection.insertAll Collection.init bs) =
        exactBoundingBox ⟨0, 0⟩ (bs.map (fun e => e.position))) ∧
    (∀ (w h : ℚ) (bs : List Body),
      (∀ e ∈ bs, 0 ≤ e.position.x ∧ e.position.x ≤ w ∧ 0 ≤ e.position.y ∧ e.position.y ≤ h) →
      SpatialHashing.bounds (SpatialHashing.insertAll (SpatialHashing.init w h) bs) =
        ⟨0, 0, w, h⟩) := by
  refine ⟨fun bs => rfl, ?_, ?_⟩
  · intro bs
    show (Collection.insertAll Collection.init bs).box = _
    rw [Collection.insertAll_box_eq]
    have h0 : (Collection.init).box = ⟨0, 0, (0 : ℚ) - 0, (0 : ℚ) - 0⟩ := by
      simp [Collection.init]
    rw [h0, foldl_merge_corner]
    simp [exactBoundingBox]
  · intro w h bs hin
    show (SpatialHashing.insertAll (SpatialHashing.init w h) bs).box = _
    rw [SpatialHashing.insertAll_box_merge]
    show (bs.map (fun e => e.position)).foldl Box.merge ⟨0, 0, w, h⟩ = _
    induction bs with
    | nil => rfl
    | cons e bs ih =>
      have he := hin e (by simp)
      simp only [List.map_cons, List.foldl_cons]
      have hm : Box.merge ⟨0, 0, w, h⟩ e.position = ⟨0, 0, w, h⟩ := by
        unfold Box.merge
        simp only [zero_add]
        rw [min_eq_left he.1, min_eq_left he.2.2.1, max_eq_left he.2.1, max_eq_left he.2.2.2]
        simp
      rw [hm]
      exact ih fun x hx => hin x (by simp [hx])

/-- C8 witness: the hash backend keeps its configured `1000×1000` world
rectangle after inserting the in-bounds point `(500, 500)`. -/
theorem C8_bounds_witness :
    SpatialHashing.bounds
        (SpatialHashing.insertAll (SpatialHashing.init 1000 1000) [⟨⟨500, 500⟩, ⟨0, 0⟩, 1⟩]) =
      ⟨0, 0, 1000, 1000⟩ :=
  C8_bounds.2.2 1000 1000 [⟨⟨500, 500⟩, ⟨0, 0⟩, 1⟩] (by with_unfolding_all decide)

lemma Collection.queryLoop_filter_take (pred : Body → Bool) :
    ∀ (es : List Body) (m c : ℕ),
      Collection.queryLoop pred es m c = (es.filter pred).take (m - c) := by
  intro es
  induction es with
  | nil => intro m c; simp [Collection.queryLoop]
  | cons e es ih =>
    intro m c
    by_cases hp : pred e
    · by_cases hc : m ≤ c
      · simp [Collection.queryLoop, hp, hc, Nat.sub_eq_zero_of_le hc]
      · have hmc : m - c = (m - (c + 1)) + 1 := by omega
        simp [Collection.queryLoop, hp, hc, hmc, ih]
    · simp [Collection.queryLoop, hp, ih]

lemma SpatialHashing.queryLoop_take_filter (pred : Body → Bool) :
    ∀ (es : List Body) (m c : ℕ),
      SpatialHashing.queryLoop pred es m c = (es.take (m - c)).filter pred := by
  intro es
  induction es with
  | nil => intro m c; simp [SpatialHashing.queryLoop]
  | cons e es ih =>
    intro m c
    by_cases hc : m ≤ c
    · simp [SpatialHashing.queryLoop, hc, Nat.sub_eq_zero_of_le hc]
    · have hmc : m - c = (m - (c + 1)) + 1 := by omega
      by_cases hp : pred e
      · simp [SpatialHashing.queryLoop, hc, hp, hmc, ih]
      · simp [SpatialHashing.queryLoop, hc, hp, hmc, ih]

/-- C5 counterexample: the `1000×1000` hash index holds two elements in one
bucket (cell `(0, 0)`): `(1, 0)`, which fails the distance predicate around
`(2, 0)` with radius `1/2`, and `(2, 0)`, which satisfies it.  With
`maxClosest = 1` the claim demands the one matching element; the code
returns nothing, because the non-matching element consumed the cap
(`count++` runs on every scanned element).  The linear `Collection` backend
on the same data returns the match, as the claim states. -/
theorem C5_counterexample :
    SpatialHashing.query
        (SpatialHashing.update
          (SpatialHashing.insertAll (SpatialHashing.init 1000 1000)
            [⟨⟨1, 0⟩, ⟨0, 0⟩, 1⟩, ⟨⟨2, 0⟩, ⟨0, 0⟩, 1⟩]) [])
        ⟨⟨2, 0⟩, ⟨0, 0⟩, 1⟩ (DistancePred ⟨2, 0⟩ (1 / 2)) 1 = [] ∧
    Collection.query
        (Collection.insertAll Collection.init
          [⟨⟨1, 0⟩, ⟨0, 0⟩, 1⟩, ⟨⟨2, 0⟩, ⟨0, 0⟩, 1⟩]) (DistancePred ⟨2, 0⟩ (1 / 2)) 1 =
      [⟨⟨2, 0⟩, ⟨0, 0⟩, 1⟩] ∧
    DistancePred ⟨2, 0⟩ (1 / 2) ⟨⟨2, 0⟩, ⟨0, 0⟩, 1⟩ = true := by
  with_unfolding_all decide

/-- C5 (amended): the cap semantics asserted by the claim holds for the
linear `Collection` backend — its query equals the matching elements
truncated to `maxClosest`, so it returns all matches when fewer than the cap
match and exactly the cap many otherwise, with non-matching elements not
consuming the cap.  In `SpatialHashing::query`, however, `count++` runs on
every scanned bucket element, matching or not: the query equals the
predicate filter of the first `maxClosest` *scanned* entries, and may
return fewer than `maxClosest` matches even when the bucket holds that
many. -/
theorem C5_query_cap :
    (∀ (s : Collection.State) (pred : Body → Bool) (m : ℕ),
      Collection.query s pred m = (s.elements.filter pred).take m) ∧
    (∀ (s : Collection.State) (pred : Body → Bool) (m : ℕ),
      (s.elements.filter pred).length ≤ m →
      Collection.query s pred m = s.elements.filter pred) ∧
    (∀ (s : Collection.State) (pred : Body → Bool) (m : ℕ),
      m ≤ (s.elements.filter pred).length → (Collection.query s pred m).length = m) ∧
    (∀ (s : SpatialHashing.State) (e : Body) (pred : Body → Bool) (m : ℕ),
      SpatialHashing.query s e pred m =
        ((SpatialHashing.scannedElems s e.position).take m).filter pred) := by
  have hc : ∀ (s : Collection.State) (pred : Body → Bool) (m : ℕ),
      Collection.query s pred m = (s.elements.filter pred).take m := by
    intro s pred m
    show Collection.queryLoop pred s.elements m 0 = _
    rw [Collection.queryLoop_filter_take, Nat.sub_zero]
  refine ⟨hc, ?_, ?_, ?_⟩
  · intro s pred m hm
    rw [hc, List.take_of_length_le hm]
  · intro s pred m hm
    rw [hc, List.length_take]
    omega
  · intro s e pred m
    show SpatialHashing.queryLoop pred _ m 0 = _
    rw [SpatialHashing.queryLoop_take_filter, Nat.sub_zero]

/-- C5 witness: the amended cap semantics evaluated on concrete linear
collections (all matches returned below the cap; exactly one match returned
at the cap). -/
theorem C5_query_cap_witness :
    Collection.query (Collection.insertAll Collection.init [⟨⟨1, 0⟩, ⟨0, 0⟩, 1⟩])
        (DistancePred ⟨0, 0⟩ 10) 5 =
      (Collection.insertAll Collection.init [⟨⟨1, 0⟩, ⟨0, 0⟩, 1⟩]).elements.filter
        (DistancePred ⟨0, 0⟩ 10) ∧
    (Collection.query
        (Collection.insertAll Collection.init [⟨⟨1, 0⟩, ⟨0, 0⟩, 1⟩, ⟨⟨2, 0⟩, ⟨0, 0⟩, 1⟩])
        (DistancePred ⟨0, 0⟩ 10) 1).length = 1 :=
  ⟨C5_query_cap.2.1 _ _ _ (by with_unfolding_all decide),
   C5_query_cap.2.2.1 _ _ _ (by with_unfolding_all decide)⟩

lemma SpatialHashing.elements_insertAll (s : SpatialHashing.State) (bs : List Body) :
    (SpatialHashing.insertAll s bs).elements = s.elements ++ bs := by
  induction bs generalizing s with
  | nil => simp [SpatialHashing.insertAll]
  | cons e bs ih =>
    show (SpatialHashing.insertAll (SpatialHashing.insert s e) bs).elements = _
    rw [ih]
    simp [SpatialHashing.insert]

lemma SpatialHashing.update_parts (s t : SpatialHashing.State) (σ τ : List ℕ)
    (h : s.elements = t.elements) :
    (SpatialHashing.update s σ).hashtable = (SpatialHashing.update t τ).hashtable ∧
    (SpatialHashing.update s σ).pivots = (SpatialHashing.update t τ).pivots := by
  unfold SpatialHashing.update
  rw [h]
  exact ⟨rfl, rfl⟩

/-- C7: rebuild is membership-idempotent — `update()` after `clear()` and
reinsertion of the same `P`, and repeated `update()` with unchanged
elements, reproduce the identical hashtable and pivot vectors (hence the
identical per-bucket membership, and even the identical in-bucket order).
The shuffled vector `σ`/`τ` computed by the randomisation step is stored
but read by nothing, so it cannot alter which bucket an element lands in. -/
theorem C7_membership_idempotent (s : SpatialHashing.State) (P : List Body) (σ τ ρ : List ℕ) :
    ((SpatialHashing.update (SpatialHashing.insertAll
        (SpatialHashing.clear (SpatialHashing.update
          (SpatialHashing.insertAll (SpatialHashing.clear s) P) σ)) P) τ).hashtable =
      (SpatialHashing.update (SpatialHashing.insertAll (SpatialHashing.clear s) P) σ).hashtable ∧
     (SpatialHashing.update (SpatialHashing.insertAll
        (SpatialHashing.clear (SpatialHashing.update
          (SpatialHashing.insertAll (SpatialHashing.clear s) P) σ)) P) τ).pivots =
      (SpatialHashing.update (SpatialHashing.insertAll (SpatialHashing.clear s) P) σ).pivots ∧
     (SpatialHashing.update (SpatialHashing.insertAll
        (SpatialHashing.clear (SpatialHashing.update
          (SpatialHashing.insertAll (SpatialHashing.clear s) P) σ)) P) τ).elements =
      (SpatialHashing.update (SpatialHashing.insertAll (SpatialHashing.clear s) P) σ).elements) ∧
    ((SpatialHashing.update (SpatialHashing.update
        (SpatialHashing.insertAll (SpatialHashing.clear s) P) σ) ρ).hashtable =
      (SpatialHashing.update (SpatialHashing.insertAll (SpatialHashing.clear s) P) σ).hashtable ∧
     (SpatialHashing.update (SpatialHashing.update
        (SpatialHashing.insertAll (SpatialHashing.clear s) P) σ) ρ).pivots =
      (SpatialHashing.update (SpatialHashing.insertAll (SpatialHashing.clear s) P) σ).pivots) := by
  have hel : ∀ (t : SpatialHashing.State),
      (SpatialHashing.insertAll (SpatialHashing.clear t) P).elements = P := by
    intro t
    rw [SpatialHashing.elements_insertAll]
    rfl
  have hup : ∀ (t : SpatialHashing.State) (π : List ℕ),
      (SpatialHashing.update t π).elements = t.elements := fun _ _ => rfl
  refine ⟨⟨?_, ?_, ?_⟩, ?_, ?_⟩
  · exact (SpatialHashing.update_parts _ _ τ σ (by rw [hel _, hel _])).1
  · exact (SpatialHashing.update_parts _ _ τ σ (by rw [hel _, hel _])).2
  · rw [hup _ τ, hup _ σ, hel _, hel _]
  · exact (SpatialHashing.update_parts _ _ ρ σ (by rw [hup _ σ, hel _])).1
  · exact (SpatialHashing.update_parts _ _ ρ σ (by rw [hup _ σ, hel _])).2

namespace SpatialHashing

lemma bucketOf_lt (e : Body) : bucketOf e < pivotTableSize := by
  unfold bucketOf getCellIndex
  exact Nat.mod_lt _ (by decide)

lemma length_incAt (l : List ℕ) (i : ℕ) : (incAt l i).length = l.length := by
  simp [incAt]

lemma getD_incAt (l : List ℕ) (i j : ℕ) (hi : i < l.length) :
    (incAt l i).getD j 0 = l.getD j 0 + if i = j then 1 else 0 := by
  unfold incAt
  simp only [List.getD_eq_getElem?_getD]
  by_cases h : i = j
  · subst h
    rw [List.getElem?_set_eq_of_lt _ hi, List.getElem?_eq_getElem hi]
    simp
  · rw [List.getElem?_set_ne h]
    simp [h]

lemma cnt_nil (b : ℕ) : cnt [] b = 0 := rfl

lemma cnt_cons (e : Body) (es : List Body) (b : ℕ) :
    cnt (e :: es) b = cnt es b + if bucketOf e = b then 1 else 0 := by
  unfold cnt
  rw [List.countP_cons]
  simp [beq_iff_eq]

lemma foldl_incAt_length : ∀ (es : List Body) (acc : List ℕ),
    (es.foldl (fun piv e => incAt piv (bucketOf e)) acc).length = acc.length := by
  intro es
  induction es with
  | nil => intro acc; rfl
  | cons e es ih => intro acc; rw [List.foldl_cons, ih, length_incAt]

lemma foldl_incAt_getD (b : ℕ) : ∀ (es : List Body) (acc : List ℕ),
    acc.length = pivotTableSize →
    (es.foldl (fun piv e => incAt piv (bucketOf e)) acc).getD b 0 = acc.getD b 0 + cnt es b := by
  intro es
  induction es with
  | nil => intro acc _; simp [cnt_nil]
  | cons e es ih =>
    intro acc hlen
    rw [List.foldl_cons, ih _ (by rw [length_incAt, hlen]),
      getD_incAt _ _ _ (by rw [hlen]; exact bucketOf_lt e), cnt_cons]
    omega

lemma countsOf_length (elems : List Body) : (countsOf elems).length = pivotTableSize := by
  unfold countsOf
  rw [foldl_incAt_length, List.length_replicate]

lemma countsOf_eq (elems : List Body) :
    countsOf elems = (List.range pivotTableSize).map (cnt elems) := by
  apply List.ext_getElem
  · rw [countsOf_length, List.length_map, List.length_range]
  · intro i h1 h2
    rw [List.length_map, List.length_range] at h2
    have hD : (countsOf elems).getD i 0 = cnt elems i := by
      unfold countsOf
      rw [foldl_incAt_getD _ _ _ (by rw [List.length_replicate])]
      simp [List.getD_eq_getElem?_getD, List.getElem?_replicate, h2]
    rw [← List.getD_eq_getElem (countsOf elems) 0 h1, hD]
    rw [List.getElem_map, List.getElem_range]

lemma length_startOffsets : ∀ (cs : List ℕ) (s : ℕ), (startOffsets s cs).length = cs.length := by
  intro cs
  induction cs with
  | nil => intro s; rfl
  | cons c cs ih => intro s; simp [startOffsets, ih]

lemma getD_startOffsets : ∀ (cs : List ℕ) (s i : ℕ), i < cs.length →
    (startOffsets s cs).getD i 0 = s + (cs.take i).sum := by
  intro cs
  induction cs with
  | nil => intro s i h; simp at h
  | cons c cs ih =>
    intro s i h
    match i with
    | 0 => simp [startOffsets]
    | i + 1 =>
      show (startOffsets (s + c) cs).getD i 0 = _
      rw [ih _ _ (by simpa using h)]
      simp [List.take_succ_cons]
      omega

lemma list_range_map_sum (f : ℕ → ℕ) (n : ℕ) :
    ((List.range n).map f).sum = ∑ i ∈ Finset.range n, f i := by
  induction n with
  | zero => simp
  | succ n ih =>
    rw [List.range_succ, List.map_append, List.sum_append, Finset.sum_range_succ, ih]
    simp

lemma bucketStart_zero (elems : List Body) : bucketStart elems 0 = 0 := rfl

lemma bucketStart_succ (elems : List Body) (b : ℕ) :
    bucketStart elems (b + 1) = bucketStart elems b + cnt elems b := by
  unfold bucketStart
  rw [List.range_succ, List.map_append, List.sum_append]
  simp

lemma bucketStart_mono (elems : List Body) {a b : ℕ} (h : a ≤ b) :
    bucketStart elems a ≤ bucketStart elems b := by
  induction b with
  | zero =>
    have ha : a = 0 := by omega
    subst ha
    exact le_refl _
  | succ b ih =>
    rcases Nat.lt_or_ge a (b + 1) with hlt | hge
    · exact le_trans (ih (by omega)) (by rw [bucketStart_succ]; omega)
    · have : a = b + 1 := by omega
      subst this
      exact le_refl _

lemma bucketStart_total (elems : List Body) :
    bucketStart elems pivotTableSize = elems.length := by
  unfold bucketStart
  rw [list_range_map_sum]
  induction elems with
  | nil => simp [cnt_nil]
  | cons e es ih =>
    have : ∀ b ∈ Finset.range pivotTableSize, cnt (e :: es) b =
        cnt es b + if bucketOf e = b then 1 else 0 := fun b _ => cnt_cons e es b
    rw [Finset.sum_congr rfl this, Finset.sum_add_distrib, ih,
      Finset.sum_ite_eq (Finset.range pivotTableSize) (bucketOf e) (fun _ => 1)]
    simp [Finset.mem_range.mpr (bucketOf_lt e)]

lemma bucketStart_add_cnt_le (elems : List Body) (b : ℕ) (hb : b < pivotTableSize) :
    bucketStart elems b + cnt elems b ≤ elems.length := by
  rw [← bucketStart_succ, ← bucketStart_total elems]
  exact bucketStart_mono elems (by omega)

end SpatialHashing

namespace SpatialHashing

lemma getD_set_ne (l : List ℕ) (i j v : ℕ) (h : i ≠ j) :
    (l.set i v).getD j 0 = l.getD j 0 := by
  simp only [List.getD_eq_getElem?_getD]
  rw [List.getElem?_set_ne h]

lemma getD_set_self (l : List ℕ) (i v : ℕ) (h : i < l.length) :
    (l.set i v).getD i 0 = v := by
  simp only [List.getD_eq_getElem?_getD]
  rw [List.getElem?_set_eq_of_lt _ h]
  rfl

lemma take_eq_map_range_getD (l : List Body) (m : ℕ) (hm : m ≤ l.length) :
    l.take m = (List.range m).map (fun i => l.getD i default) := by
  apply List.ext_getElem
  · simp [Nat.min_eq_left hm]
  · intro i h1 h2
    simp only [List.length_take] at h1
    have hil : i < l.length := by omega
    simp only [List.getElem_take, List.getElem_map, List.getElem_range]
    rw [List.getD_eq_getElem l default hil]

lemma cnt_take_eq (full : List Body) (b m : ℕ) (hm : m ≤ full.length) :
    cnt (full.take m) b =
      ((List.range m).filter fun i => bucketOf (full.getD i default) == b).length := by
  rw [← List.countP_eq_length_filter]
  unfold cnt
  rw [take_eq_map_range_getD full m hm, List.countP_map]
  rfl

lemma bucketIndices_length (full : List Body) (b : ℕ) :
    (bucketIndices full b).length = cnt full b := by
  unfold bucketIndices
  rw [← List.countP_eq_length_filter]
  have := cnt_take_eq full b full.length (le_refl _)
  rw [List.take_length] at this
  rw [this, ← List.countP_eq_length_filter]

lemma cnt_take_le (full : List Body) (m b : ℕ) : cnt (full.take m) b ≤ cnt full b :=
  List.Sublist.countP_le _ (List.take_sublist m full)

lemma filter_range_getD (p : ℕ → Bool) (n m : ℕ) (hm : m < n) (hp : p m = true) :
    ((List.range n).filter p).getD (((List.range m).filter p).length) 0 = m := by
  have hsplit : List.range n = List.range (m + 1) ++ (List.range (n - (m + 1))).map ((m + 1) + ·) := by
    rw [← List.range_add]
    congr 1
    omega
  rw [hsplit, List.filter_append, List.range_succ, List.filter_append]
  have hfm : List.filter p [m] = [m] := by simp [hp]
  rw [hfm, List.append_assoc]
  rw [List.getD_append_right _ _ _ _ (le_refl _)]
  simp

end SpatialHashing

namespace SpatialHashing

lemma scatter_spec (full : List Body) :
    ∀ (rest : List Body) (m : ℕ) (cursors ht : List ℕ),
      full.drop m = rest →
      cursors.length = pivotTableSize →
      ht.length = full.length →
      (∀ b, b < pivotTableSize →
        cursors.getD b 0 = bucketStart full b + cnt (full.take m) b) →
      (∀ b, b < pivotTableSize → ∀ k, k < cnt (full.take m) b →
        ht.getD (bucketStart full b + k) 0 = (bucketIndices full b).getD k 0) →
      ((rest.enumFrom m).foldl scatterStep (cursors, ht)).1.length = pivotTableSize ∧
      ((rest.enumFrom m).foldl scatterStep (cursors, ht)).2.length = full.length ∧
      (∀ b, b < pivotTableSize →
        ((rest.enumFrom m).foldl scatterStep (cursors, ht)).1.getD b 0 =
          bucketStart full b + cnt full b) ∧
      (∀ b, b < pivotTableSize → ∀ k, k < cnt full b →
        ((rest.enumFrom m).foldl scatterStep (cursors, ht)).2.getD (bucketStart full b + k) 0 =
          (bucketIndices full b).getD k 0) := by
  intro rest
  induction rest with
  | nil =>
    intro m cursors ht hdrop hclen htlen hcur hht
    have hm : full.length ≤ m := by
      by_contra hcon
      push_neg at hcon
      have hlen := congrArg List.length hdrop
      rw [List.length_drop] at hlen
      simp only [List.length_nil] at hlen
      omega
    have htake : full.take m = full := List.take_of_length_le hm
    rw [htake] at hcur hht
    exact ⟨hclen, htlen, hcur, hht⟩
  | cons e rest ih =>
    intro m cursors ht hdrop hclen htlen hcur hht
    have hmlt : m < full.length := by
      by_contra hcon
      push_neg at hcon
      rw [List.drop_eq_nil_of_le hcon] at hdrop
      exact absurd hdrop.symm (List.cons_ne_nil e rest)
    have hgetm : full[m]? = some e := by
      have h0 := congrArg (fun l => l[0]?) hdrop
      simp only [List.getElem?_drop, Nat.add_zero] at h0
      simpa using h0
    have he : full.getD m default = e := by
      rw [List.getD_eq_getElem?_getD, hgetm]
      rfl
    have hdrop' : full.drop (m + 1) = rest := by
      have h1 : full.drop (m + 1) = (full.drop m).drop 1 := by
        rw [List.drop_drop]
      rw [h1, hdrop]
      rfl
    rw [List.enumFrom_cons, List.foldl_cons]
    have hb0lt : bucketOf e < pivotTableSize := bucketOf_lt e
    have hstep : scatterStep (cursors, ht) (m, e) =
        (cursors.set (bucketOf e) (cursors.getD (bucketOf e) 0 + 1),
         ht.set (cursors.getD (bucketOf e) 0) m) := rfl
    rw [hstep]
    have hcnt_succ : ∀ b, cnt (full.take (m + 1)) b =
        cnt (full.take m) b + if bucketOf e = b then 1 else 0 := by
      intro b
      rw [List.take_succ, hgetm]
      show cnt (full.take m ++ [e]) b = _
      unfold cnt
      rw [List.countP_append, List.countP_cons, List.countP_nil]
      simp [beq_iff_eq]
    have hidx : cursors.getD (bucketOf e) 0 =
        bucketStart full (bucketOf e) + cnt (full.take m) (bucketOf e) :=
      hcur _ hb0lt
    have hcnt_lt : cnt (full.take m) (bucketOf e) < cnt full (bucketOf e) := by
      have h1 : cnt (full.take (m + 1)) (bucketOf e) =
          cnt (full.take m) (bucketOf e) + 1 := by
        rw [hcnt_succ]
        simp
      have h2 := cnt_take_le full (m + 1) (bucketOf e)
      omega
    have hidx_lt : cursors.getD (bucketOf e) 0 < full.length := by
      rw [hidx]
      have := bucketStart_add_cnt_le full (bucketOf e) hb0lt
      omega
    refine ih (m + 1) _ _ hdrop' (by simp [hclen]) (by simp [htlen]) ?_ ?_
    · intro b hb
      by_cases hbe : bucketOf e = b
      · subst hbe
        rw [getD_set_self _ _ _ (by rw [hclen]; exact hb0lt), hidx, hcnt_succ]
        simp only [eq_self_iff_true, if_true]
        omega
      · rw [getD_set_ne _ _ _ _ hbe, hcur b hb, hcnt_succ]
        simp [hbe]
    · intro b hb k hk
      rw [hcnt_succ] at hk
      by_cases hbe : bucketOf e = b
      · subst hbe
        have hk' : k < cnt (full.take m) (bucketOf e) + 1 := by
          rw [if_pos rfl] at hk
          exact hk
        by_cases hke : k = cnt (full.take m) (bucketOf e)
        · subst hke
          rw [← hidx, getD_set_self _ _ _ (by rw [htlen]; exact hidx_lt)]
          have hplen : (bucketOf (full.getD m default) == bucketOf e) = true := by
            rw [he]
            simp
          rw [cnt_take_eq full (bucketOf e) m (le_of_lt hmlt)]
          unfold bucketIndices
          rw [filter_range_getD _ _ _ hmlt hplen]
        · have hklt : k < cnt (full.take m) (bucketOf e) := by omega
          have hne : cursors.getD (bucketOf e) 0 ≠ bucketStart full (bucketOf e) + k := by
            rw [hidx]
            omega
          rw [getD_set_ne _ _ _ _ hne]
          exact hht _ hb0lt k hklt
      · simp only [if_neg hbe, Nat.add_zero] at hk
        have hne : cursors.getD (bucketOf e) 0 ≠ bucketStart full b + k := by
          rw [hidx]
          rcases Nat.lt_or_ge (bucketOf e) b with hlt | hge
          · have h1 : bucketStart full (bucketOf e) + cnt full (bucketOf e) ≤
                bucketStart full b := by
              rw [← bucketStart_succ]
              exact bucketStart_mono full hlt
            have h2 := cnt_take_le full m (bucketOf e)
            omega
          · have hlt' : b < bucketOf e := by omega
            have h1 : bucketStart full b + cnt full b ≤ bucketStart full (bucketOf e) := by
              rw [← bucketStart_succ]
              exact bucketStart_mono full hlt'
            have h2 := cnt_take_le full m b
            omega
        rw [getD_set_ne _ _ _ _ hne]
        exact hht b hb k hk

end SpatialHashing

namespace SpatialHashing

lemma scatter_eq_foldl (elems : List Body) (cursors ht : List ℕ) :
    scatter elems cursors ht = (elems.enumFrom 0).foldl scatterStep (cursors, ht) := rfl

lemma update_spec (s : State) (σ : List ℕ) :
    (update s σ).pivots.length = pivotTableSize + 1 ∧
    (∀ b, b ≤ pivotTableSize →
      (update s σ).pivots.getD b 0 = bucketStart s.elements b) ∧
    (update s σ).hashtable.length = s.elements.length ∧
    (∀ b, b < pivotTableSize →
      bucketSlice (update s σ) b = bucketIndices s.elements b) := by
  have hcur0 : ∀ b, b < pivotTableSize →
      (startOffsets 0 (countsOf s.elements)).getD b 0 =
        bucketStart s.elements b + cnt (s.elements.take 0) b := by
    intro b hb
    rw [getD_startOffsets _ _ _ (by rw [countsOf_length]; exact hb), countsOf_eq,
      ← List.map_take, List.take_range, Nat.min_eq_left (le_of_lt hb)]
    show 0 + _ = _
    rw [Nat.zero_add, List.take_zero, cnt_nil, Nat.add_zero]
    rfl
  have hht0 : ∀ b, b < pivotTableSize → ∀ k, k < cnt (s.elements.take 0) b →
      (List.replicate s.elements.length 0).getD (bucketStart s.elements b + k) 0 =
        (bucketIndices s.elements b).getD k 0 := by
    intro b hb k hk
    rw [List.take_zero, cnt_nil] at hk
    omega
  have hmain := scatter_spec s.elements s.elements 0
    (startOffsets 0 (countsOf s.elements)) (List.replicate s.elements.length 0)
    rfl
    (by rw [length_startOffsets, countsOf_length])
    (by rw [List.length_replicate])
    hcur0 hht0
  have hpiv : (update s σ).pivots =
      0 :: ((s.elements.enumFrom 0).foldl scatterStep
        (startOffsets 0 (countsOf s.elements), List.replicate s.elements.length 0)).1 := rfl
  have hht : (update s σ).hashtable =
      ((s.elements.enumFrom 0).foldl scatterStep
        (startOffsets 0 (countsOf s.elements), List.replicate s.elements.length 0)).2 := rfl
  obtain ⟨hclen, htlen, hcur, hslot⟩ := hmain
  have hgetD : ∀ b, b ≤ pivotTableSize →
      (update s σ).pivots.getD b 0 = bucketStart s.elements b := by
    intro b hb
    rw [hpiv]
    match b with
    | 0 => rfl
    | b + 1 =>
      show (_ : List ℕ).getD b 0 = _
      rw [hcur b (by omega), ← bucketStart_succ]
  refine ⟨by rw [hpiv]; simp [hclen], hgetD, by rw [hht]; exact htlen, ?_⟩
  intro b hb
  have hst : (update s σ).pivots.getD b 0 = bucketStart s.elements b := hgetD b (le_of_lt hb)
  have hen : (update s σ).pivots.getD (b + 1) 0 = bucketStart s.elements (b + 1) :=
    hgetD (b + 1) (by omega)
  have hcnt_le := bucketStart_add_cnt_le s.elements b hb
  unfold bucketSlice
  rw [hst, hen, bucketStart_succ, Nat.add_sub_cancel_left]
  apply List.ext_getElem
  · rw [List.length_take, List.length_drop, bucketIndices_length, hht, htlen]
    omega
  · intro k h1 h2
    have hk : k < cnt s.elements b := by
      rw [bucketIndices_length] at h2
      exact h2
    have hgoal : ((update s σ).hashtable.drop (bucketStart s.elements b)).getD k 0 =
        (bucketIndices s.elements b).getD k 0 := by
      rw [List.getD_eq_getElem?_getD, List.getElem?_drop, ← List.getD_eq_getElem?_getD]
      rw [hht]
      exact hslot b hb k hk
    calc (List.take (cnt s.elements b)
            (List.drop (bucketStart s.elements b) (update s σ).hashtable))[k]
        = (List.take (cnt s.elements b)
            (List.drop (bucketStart s.elements b) (update s σ).hashtable)).getD k 0 :=
          (List.getD_eq_getElem _ 0 h1).symm
      _ = ((update s σ).hashtable.drop (bucketStart s.elements b)).getD k 0 := by
          rw [List.getD_eq_getElem?_getD, List.getElem?_take, if_pos hk,
            ← List.getD_eq_getElem?_getD]
      _ = (bucketIndices s.elements b).getD k 0 := hgoal
      _ = (bucketIndices s.elements b)[k] := List.getD_eq_getElem _ 0 h2

end SpatialHashing

/-- C6: after every `update()`, the pivot vector has `pivotTableSize + 1`
entries, is monotonically non-decreasing, starts at `0` and ends at the
element count, and every stored element index occupies exactly one bucket
range `[pivots[b], pivots[b+1])` — the bucket obtained by hashing its cell
coordinate. -/
theorem C6_pivot_invariants (s : SpatialHashing.State) (σ : List ℕ) :
    (SpatialHashing.update s σ).pivots.length = SpatialHashing.pivotTableSize + 1 ∧
    List.Sorted (· ≤ ·) (SpatialHashing.update s σ).pivots ∧
    (SpatialHashing.update s σ).pivots.getD 0 0 = 0 ∧
    (SpatialHashing.update s σ).pivots.getD SpatialHashing.pivotTableSize 0 =
      s.elements.length ∧
    (∀ i, i < s.elements.length → ∀ b, b < SpatialHashing.pivotTableSize →
      (SpatialHashing.bucketSlice (SpatialHashing.update s σ) b).count i =
        if SpatialHashing.bucketOf (s.elements.getD i default) = b then 1 else 0) := by
  obtain ⟨hlen, hgetD, hhtlen, hslice⟩ := SpatialHashing.update_spec s σ
  refine ⟨hlen, ?_, ?_, ?_, ?_⟩
  · rw [List.Sorted, List.pairwise_iff_getElem]
    intro i j hi hj hij
    have hi' : i ≤ SpatialHashing.pivotTableSize := by omega
    have hj' : j ≤ SpatialHashing.pivotTableSize := by omega
    have h1 : (SpatialHashing.update s σ).pivots[i] =
        SpatialHashing.bucketStart s.elements i := by
      rw [← List.getD_eq_getElem _ 0 hi]
      exact hgetD i hi'
    have h2 : (SpatialHashing.update s σ).pivots[j] =
        SpatialHashing.bucketStart s.elements j := by
      rw [← List.getD_eq_getElem _ 0 hj]
      exact hgetD j hj'
    rw [h1, h2]
    exact SpatialHashing.bucketStart_mono s.elements (by omega)
  · rw [hgetD 0 (by omega)]
    rfl
  · rw [hgetD _ (le_refl _), SpatialHashing.bucketStart_total]
  · intro i hi b hb
    rw [hslice b hb]
    unfold SpatialHashing.bucketIndices
    by_cases hcase : SpatialHashing.bucketOf (s.elements.getD i default) = b
    · rw [if_pos hcase]
      apply List.count_eq_one_of_mem
      · exact List.Nodup.filter _ (List.nodup_range _)
      · exact List.mem_filter.mpr
          ⟨List.mem_range.mpr hi, by simpa [beq_iff_eq] using hcase⟩
    · rw [if_neg hcase]
      apply List.count_eq_zero_of_not_mem
      intro hmem
      have hpm := (List.mem_filter.mp hmem).2
      simp only [beq_iff_eq] at hpm
      exact hcase hpm

/-- C6 witness: the exactly-one-bucket membership applied to the concrete
one-element hash index (element at `(1, 0)`, bucket `0`). -/
theorem C6_pivot_invariants_witness :
    (SpatialHashing.bucketSlice
        (SpatialHashing.update
          (SpatialHashing.insertAll (SpatialHashing.init 1000 1000)
            [⟨⟨1, 0⟩, ⟨0, 0⟩, 1⟩]) []) 0).count 0 =
      if SpatialHashing.bucketOf
          ((SpatialHashing.insertAll (SpatialHashing.init 1000 1000)
            [⟨⟨1, 0⟩, ⟨0, 0⟩, 1⟩]).elements.getD 0 default) = 0
        then 1 else 0 :=
  (C6_pivot_invariants _ []).2.2.2.2 0 (by with_unfolding_all decide) 0 (by decide)

/-- C2: (1) after `update()`, a query issued from any position hashing to an
element's bucket scans that element — no false negatives within the bucket;
(2) for two stored elements in distinct cells colliding into one bucket, a
query centred at one of them with radius at most their distance scans the
other (it is a bucket false positive) but does not return it, because the
exact `Distance` predicate filters it out. -/
theorem C2_bucket_scan :
    (∀ (s : SpatialHashing.State) (σ : List ℕ) (i : ℕ) (q : Body),
      i < s.elements.length →
      SpatialHashing.bucketOf q = SpatialHashing.bucketOf (s.elements.getD i default) →
      s.elements.getD i default ∈
        SpatialHashing.scannedElems (SpatialHashing.update s σ) q.position) ∧
    (∀ (s : SpatialHashing.State) (σ : List ℕ) (i j : ℕ) (r : ℚ) (m : ℕ),
      i < s.elements.length → j < s.elements.length →
      SpatialHashing.getCellCoordinates (s.elements.getD i default).position ≠
        SpatialHashing.getCellCoordinates (s.elements.getD j default).position →
      SpatialHashing.bucketOf (s.elements.getD i default) =
        SpatialHashing.bucketOf (s.elements.getD j default) →
      r * r ≤ ((s.elements.getD j default).position.sub
        (s.elements.getD i default).position).lengthSquared →
      (s.elements.getD j default ∈
        SpatialHashing.scannedElems (SpatialHashing.update s σ)
          (s.elements.getD i default).position) ∧
      s.elements.getD j default ∉
        SpatialHashing.query (SpatialHashing.update s σ) (s.elements.getD i default)
          (DistancePred (s.elements.getD i default).position r) m) := by
  have hscan : ∀ (s : SpatialHashing.State) (σ : List ℕ) (i : ℕ) (q : Body),
      i < s.elements.length →
      SpatialHashing.bucketOf q = SpatialHashing.bucketOf (s.elements.getD i default) →
      s.elements.getD i default ∈
        SpatialHashing.scannedElems (SpatialHashing.update s σ) q.position := by
    intro s σ i q hi hbq
    obtain ⟨hlen, hgetD, hhtlen, hslice⟩ := SpatialHashing.update_spec s σ
    have hblt : SpatialHashing.bucketOf (s.elements.getD i default) <
        SpatialHashing.pivotTableSize := SpatialHashing.bucketOf_lt _
    have hcell : SpatialHashing.getCellIndex (SpatialHashing.getCellCoordinates q.position) =
        SpatialHashing.bucketOf (s.elements.getD i default) := hbq
    unfold SpatialHashing.scannedElems SpatialHashing.scannedIndices
    rw [hcell, hslice _ hblt]
    apply List.mem_map.mpr
    refine ⟨i, ?_, rfl⟩
    unfold SpatialHashing.bucketIndices
    exact List.mem_filter.mpr ⟨List.mem_range.mpr hi, by simp⟩
  refine ⟨hscan, ?_⟩
  intro s σ i j r m hi hj hcells hbuck hr
  refine ⟨hscan s σ j (s.elements.getD i default) hj hbuck, ?_⟩
  intro hmem
  unfold SpatialHashing.query at hmem
  rw [SpatialHashing.queryLoop_take_filter, Nat.sub_zero] at hmem
  have hpred := (List.mem_filter.mp hmem).2
  unfold DistancePred at hpred
  have hlt := of_decide_eq_true hpred
  exact absurd hlt (not_lt.mpr hr)

/-- C2 witness: the cells `(0, 0)` and `(1000, 0)` are distinct but collide
into bucket `0` of the hash table; with the points `(0, 0)` and `(50000, 0)`
stored, a radius-`10` query centred at `(0, 0)` scans the far point but does
not return it. -/
theorem C2_bucket_scan_witness :
    ((SpatialHashing.insertAll (SpatialHashing.init 1000 1000)
        [⟨⟨0, 0⟩, ⟨0, 0⟩, 1⟩, ⟨⟨50000, 0⟩, ⟨0, 0⟩, 1⟩]).elements.getD 1 default ∈
      SpatialHashing.scannedElems
        (SpatialHashing.update (SpatialHashing.insertAll (SpatialHashing.init 1000 1000)
          [⟨⟨0, 0⟩, ⟨0, 0⟩, 1⟩, ⟨⟨50000, 0⟩, ⟨0, 0⟩, 1⟩]) [])
        ((SpatialHashing.insertAll (SpatialHashing.init 1000 1000)
          [⟨⟨0, 0⟩, ⟨0, 0⟩, 1⟩, ⟨⟨50000, 0⟩, ⟨0, 0⟩, 1⟩]).elements.getD 0 default).position) ∧
    (SpatialHashing.insertAll (SpatialHashing.init 1000 1000)
        [⟨⟨0, 0⟩, ⟨0, 0⟩, 1⟩, ⟨⟨50000, 0⟩, ⟨0, 0⟩, 1⟩]).elements.getD 1 default ∉
      SpatialHashing.query
        (SpatialHashing.update (SpatialHashing.insertAll (SpatialHashing.init 1000 1000)
          [⟨⟨0, 0⟩, ⟨0, 0⟩, 1⟩, ⟨⟨50000, 0⟩, ⟨0, 0⟩, 1⟩]) [])
        ((SpatialHashing.insertAll (SpatialHashing.init 1000 1000)
          [⟨⟨0, 0⟩, ⟨0, 0⟩, 1⟩, ⟨⟨50000, 0⟩, ⟨0, 0⟩, 1⟩]).elements.getD 0 default)
        (DistancePred ((SpatialHashing.insertAll (SpatialHashing.init 1000 1000)
          [⟨⟨0, 0⟩, ⟨0, 0⟩, 1⟩, ⟨⟨50000, 0⟩, ⟨0, 0⟩, 1⟩]).elements.getD 0 default).position 10)
        1000 :=
  C2_bucket_scan.2 _ [] 0 1 10 1000
    (by with_unfolding_all decide) (by with_unfolding_all decide)
    (by with_unfolding_all decide) (by with_unfolding_all decide)
    (by with_unfolding_all decide)

namespace SpatialHashing

lemma fields_insertAll (s : State) (bs : List Body) :
    (insertAll s bs).pivots = s.pivots ∧ (insertAll s bs).hashtable = s.hashtable := by
  induction bs generalizing s with
  | nil => exact ⟨rfl, rfl⟩
  | cons e bs ih =>
    show (insertAll (insert s e) bs).pivots = _ ∧ (insertAll (insert s e) bs).hashtable = _
    rw [(ih (insert s e)).1, (ih (insert s e)).2]
    exact ⟨rfl, rfl⟩

lemma ht_entry_lt (s : State) (σ : List ℕ) (b i : ℕ) (hb : b < pivotTableSize)
    (h1 : bucketStart s.elements b ≤ i)
    (h2 : i < bucketStart s.elements b + cnt s.elements b) :
    (update s σ).hashtable.getD i 0 < s.elements.length := by
  obtain ⟨hlen, hgetD, hhtlen, hslice⟩ := update_spec s σ
  have hk : i - bucketStart s.elements b < cnt s.elements b := by omega
  have hslgetD : (bucketSlice (update s σ) b).getD (i - bucketStart s.elements b) 0 =
      (update s σ).hashtable.getD i 0 := by
    unfold bucketSlice
    rw [hgetD b (le_of_lt hb), hgetD (b + 1) (by omega), bucketStart_succ,
      Nat.add_sub_cancel_left]
    rw [List.getD_eq_getElem?_getD, List.getElem?_take, if_pos hk, List.getElem?_drop,
      ← List.getD_eq_getElem?_getD]
    congr 1
    omega
  have hv : (update s σ).hashtable.getD i 0 ∈ bucketIndices s.elements b := by
    rw [← hslgetD, hslice b hb]
    have hkb : i - bucketStart s.elements b < (bucketIndices s.elements b).length := by
      rw [bucketIndices_length]
      exact hk
    rw [List.getD_eq_getElem _ 0 hkb]
    exact List.getElem_mem hkb
  unfold bucketIndices at hv
  exact List.mem_range.mp (List.mem_filter.mp hv).1

lemma queryLoopChecked_isSome (s : State) (pred : Body → Bool) :
    ∀ (idxs : List ℕ) (m c : ℕ),
      (∀ i ∈ idxs, ∃ j, s.hashtable.get? i = some j ∧ j < s.elements.length) →
      (queryLoopChecked s pred idxs m c).isSome = true := by
  intro idxs
  induction idxs with
  | nil => intro m c _; rfl
  | cons i is ih =>
    intro m c h
    unfold queryLoopChecked
    by_cases hc : m ≤ c
    · rw [if_pos hc]
      rfl
    · rw [if_neg hc]
      obtain ⟨j, hj1, hj2⟩ := h i (by simp)
      have hj3 : s.elements.get? j = some (s.elements.getD j default) := by
        rw [List.get?_eq_getElem?, List.getElem?_eq_getElem hj2]
        rw [List.getD_eq_getElem _ _ hj2]
      have hrest := ih m (c + 1) (fun k hk => h k (by simp [hk]))
      obtain ⟨rest, hrestv⟩ := Option.isSome_iff_exists.mp hrest
      rw [hj1]
      show ((s.elements.get? j).bind fun e =>
          (queryLoopChecked s pred is m (c + 1)).bind fun rest =>
            some (if pred e = true then e :: rest else rest)).isSome = true
      rw [hj3]
      show ((queryLoopChecked s pred is m (c + 1)).bind fun rest =>
          some (if pred (s.elements.getD j default) = true then
            s.elements.getD j default :: rest else rest)).isSome = true
      rw [hrestv]
      rfl

end SpatialHashing

namespace SpatialHashing

lemma queryLoopChecked_cons (s : State) (pred : Body → Bool) (i : ℕ) (is : List ℕ) (m c : ℕ) :
    queryLoopChecked s pred (i :: is) m c =
      if m ≤ c then some [] else
        (s.hashtable.get? i).bind fun j =>
          (s.elements.get? j).bind fun e =>
            (queryLoopChecked s pred is m (c + 1)).bind fun rest =>
              some (if pred e then e :: rest else rest) := by
  rw [queryLoopChecked]
  rfl

end SpatialHashing

/-- C10 (amended): `SpatialHashing::query` is in-bounds whenever `update()`
has run since construction and no `clear()` intervened — and, contrary to
the claim, further `insert()`s after the `update()` do *not* make the query
reach an out-of-range access (the stale hashtable indices still point below
the grown element count; the results are merely stale).  Before the first
`update()` the pivot vector is empty and the very first access
`pivots[pivot_index]` is out of range; after `clear()` without a new
`update()`, a query whose (stale) bucket is non-empty reads
`elements[hashtable[i]]` on an empty element vector — out of range. -/
theorem C10_query_safety :
    (∀ (s : SpatialHashing.State) (σ : List ℕ) (extra : List Body) (q : Body)
        (pred : Body → Bool) (m : ℕ),
      (SpatialHashing.queryChecked
        (SpatialHashing.insertAll (SpatialHashing.update s σ) extra) q pred m).isSome = true) ∧
    (∀ (w h : ℚ) (bs : List Body) (q : Body) (pred : Body → Bool) (m : ℕ),
      SpatialHashing.queryChecked (SpatialHashing.insertAll (SpatialHashing.init w h) bs)
        q pred m = none) ∧
    (∀ (s : SpatialHashing.State) (σ : List ℕ) (q : Body) (pred : Body → Bool) (m : ℕ),
      0 < m → 0 < SpatialHashing.cnt s.elements (SpatialHashing.bucketOf q) →
      SpatialHashing.queryChecked (SpatialHashing.clear (SpatialHashing.update s σ))
        q pred m = none) := by
  refine ⟨?_, ?_, ?_⟩
  · intro s σ extra q pred m
    obtain ⟨hlen, hgetD, hhtlen, hslice⟩ := SpatialHashing.update_spec s σ
    obtain ⟨hfp, hfh⟩ := SpatialHashing.fields_insertAll (SpatialHashing.update s σ) extra
    have hpilt : SpatialHashing.getCellIndex (SpatialHashing.getCellCoordinates q.position) <
        SpatialHashing.pivotTableSize := SpatialHashing.bucketOf_lt q
    have hg1 : (SpatialHashing.insertAll (SpatialHashing.update s σ) extra).pivots.get?
        (SpatialHashing.getCellIndex (SpatialHashing.getCellCoordinates q.position)) =
        some (SpatialHashing.bucketStart s.elements
          (SpatialHashing.getCellIndex (SpatialHashing.getCellCoordinates q.position))) := by
      rw [hfp, List.get?_eq_getElem?, List.getElem?_eq_getElem (by rw [hlen]; omega),
        ← List.getD_eq_getElem _ 0 (by rw [hlen]; omega), hgetD _ (le_of_lt hpilt)]
    have hg2 : (SpatialHashing.insertAll (SpatialHashing.update s σ) extra).pivots.get?
        (SpatialHashing.getCellIndex (SpatialHashing.getCellCoordinates q.position) + 1) =
        some (SpatialHashing.bucketStart s.elements
          (SpatialHashing.getCellIndex (SpatialHashing.getCellCoordinates q.position) + 1)) := by
      rw [hfp, List.get?_eq_getElem?, List.getElem?_eq_getElem (by rw [hlen]; omega),
        ← List.getD_eq_getElem _ 0 (by rw [hlen]; omega), hgetD _ (by omega)]
    show (((SpatialHashing.insertAll (SpatialHashing.update s σ) extra).pivots.get?
        (SpatialHashing.getCellIndex (SpatialHashing.getCellCoordinates q.position))).bind
      fun start =>
        ((SpatialHashing.insertAll (SpatialHashing.update s σ) extra).pivots.get?
          (SpatialHashing.getCellIndex (SpatialHashing.getCellCoordinates q.position) + 1)).bind
        fun stop =>
          SpatialHashing.queryLoopChecked
            (SpatialHashing.insertAll (SpatialHashing.update s σ) extra) pred
            (List.range' start (stop - start)) m 0).isSome = true
    rw [hg1, hg2]
    show (SpatialHashing.queryLoopChecked
        (SpatialHashing.insertAll (SpatialHashing.update s σ) extra) pred
        (List.range' _ (_ - _)) m 0).isSome = true
    apply SpatialHashing.queryLoopChecked_isSome
    intro i hi
    rw [List.mem_range'_1] at hi
    have hcnt := SpatialHashing.bucketStart_succ s.elements
      (SpatialHashing.getCellIndex (SpatialHashing.getCellCoordinates q.position))
    have hle := SpatialHashing.bucketStart_add_cnt_le s.elements
      (SpatialHashing.getCellIndex (SpatialHashing.getCellCoordinates q.position)) hpilt
    have hiub : i < s.elements.length := by omega
    have hilt : i < (SpatialHashing.insertAll (SpatialHashing.update s σ) extra).hashtable.length := by
      rw [hfh, hhtlen]
      exact hiub
    refine ⟨(SpatialHashing.update s σ).hashtable.getD i 0, ?_, ?_⟩
    · rw [List.get?_eq_getElem?, List.getElem?_eq_getElem hilt]
      rw [← List.getD_eq_getElem _ 0 hilt, hfh]
    · have hv := SpatialHashing.ht_entry_lt s σ
        (SpatialHashing.getCellIndex (SpatialHashing.getCellCoordinates q.position)) i hpilt
        (by omega) (by omega)
      have helems : (SpatialHashing.insertAll (SpatialHashing.update s σ) extra).elements =
          s.elements ++ extra := SpatialHashing.elements_insertAll _ _
      rw [helems, List.length_append]
      omega
  · intro w h bs q pred m
    have hp : (SpatialHashing.insertAll (SpatialHashing.init w h) bs).pivots = [] :=
      (SpatialHashing.fields_insertAll _ _).1
    show (((SpatialHashing.insertAll (SpatialHashing.init w h) bs).pivots.get? _).bind
      fun start => _) = none
    rw [hp]
    rfl
  · intro s σ q pred m hm hcnt
    obtain ⟨hlen, hgetD, hhtlen, hslice⟩ := SpatialHashing.update_spec s σ
    have hpilt : SpatialHashing.getCellIndex (SpatialHashing.getCellCoordinates q.position) <
        SpatialHashing.pivotTableSize := SpatialHashing.bucketOf_lt q
    have hcnt' : 0 < SpatialHashing.cnt s.elements
        (SpatialHashing.getCellIndex (SpatialHashing.getCellCoordinates q.position)) := hcnt
    have hg1 : (SpatialHashing.clear (SpatialHashing.update s σ)).pivots.get?
        (SpatialHashing.getCellIndex (SpatialHashing.getCellCoordinates q.position)) =
        some (SpatialHashing.bucketStart s.elements
          (SpatialHashing.getCellIndex (SpatialHashing.getCellCoordinates q.position))) := by
      show (SpatialHashing.update s σ).pivots.get? _ = _
      rw [List.get?_eq_getElem?, List.getElem?_eq_getElem (by rw [hlen]; omega),
        ← List.getD_eq_getElem _ 0 (by rw [hlen]; omega), hgetD _ (le_of_lt hpilt)]
    have hg2 : (SpatialHashing.clear (SpatialHashing.update s σ)).pivots.get?
        (SpatialHashing.getCellIndex (SpatialHashing.getCellCoordinates q.position) + 1) =
        some (SpatialHashing.bucketStart s.elements
          (SpatialHashing.getCellIndex (SpatialHashing.getCellCoordinates q.position) + 1)) := by
      show (SpatialHashing.update s σ).pivots.get? _ = _
      rw [List.get?_eq_getElem?, List.getElem?_eq_getElem (by rw [hlen]; omega),
        ← List.getD_eq_getElem _ 0 (by rw [hlen]; omega), hgetD _ (by omega)]
    show (((SpatialHashing.clear (SpatialHashing.update s σ)).pivots.get?
        (SpatialHashing.getCellIndex (SpatialHashing.getCellCoordinates q.position))).bind
      fun start =>
        ((SpatialHashing.clear (SpatialHashing.update s σ)).pivots.get?
          (SpatialHashing.getCellIndex (SpatialHashing.getCellCoordinates q.position) + 1)).bind
        fun stop =>
          SpatialHashing.queryLoopChecked (SpatialHashing.clear (SpatialHashing.update s σ))
            pred (List.range' start (stop - start)) m 0) = none
    rw [hg1, hg2]
    show SpatialHashing.queryLoopChecked (SpatialHashing.clear (SpatialHashing.update s σ))
        pred (List.range' _ (_ - _)) m 0 = none
    have hdiff : SpatialHashing.bucketStart s.elements
        (SpatialHashing.getCellIndex (SpatialHashing.getCellCoordinates q.position) + 1) -
        SpatialHashing.bucketStart s.elements
          (SpatialHashing.getCellIndex (SpatialHashing.getCellCoordinates q.position)) =
        SpatialHashing.cnt s.elements
          (SpatialHashing.getCellIndex (SpatialHashing.getCellCoordinates q.position)) := by
      rw [SpatialHashing.bucketStart_succ]
      omega
    rw [hdiff]
    obtain ⟨k, hk⟩ : ∃ k, SpatialHashing.cnt s.elements
        (SpatialHashing.getCellIndex (SpatialHashing.getCellCoordinates q.position)) = k + 1 :=
      ⟨SpatialHashing.cnt s.elements
        (SpatialHashing.getCellIndex (SpatialHashing.getCellCoordinates q.position)) - 1,
       by omega⟩
    rw [hk]
    have hrange : List.range' (SpatialHashing.bucketStart s.elements
        (SpatialHashing.getCellIndex (SpatialHashing.getCellCoordinates q.position))) (k + 1) =
        SpatialHashing.bucketStart s.elements
          (SpatialHashing.getCellIndex (SpatialHashing.getCellCoordinates q.position)) ::
        List.range' (SpatialHashing.bucketStart s.elements
          (SpatialHashing.getCellIndex (SpatialHashing.getCellCoordinates q.position)) + 1) k :=
      rfl
    rw [hrange, SpatialHashing.queryLoopChecked_cons, if_neg (by omega)]
    have hstlt : SpatialHashing.bucketStart s.elements
        (SpatialHashing.getCellIndex (SpatialHashing.getCellCoordinates q.position)) <
        s.elements.length := by
      have := SpatialHashing.bucketStart_add_cnt_le s.elements
        (SpatialHashing.getCellIndex (SpatialHashing.getCellCoordinates q.position)) hpilt
      omega
    have hgst : (SpatialHashing.clear (SpatialHashing.update s σ)).hashtable.get?
        (SpatialHashing.bucketStart s.elements
          (SpatialHashing.getCellIndex (SpatialHashing.getCellCoordinates q.position))) =
        some ((SpatialHashing.update s σ).hashtable.getD
          (SpatialHashing.bucketStart s.elements
            (SpatialHashing.getCellIndex (SpatialHashing.getCellCoordinates q.position))) 0) := by
      show (SpatialHashing.update s σ).hashtable.get? _ = _
      rw [List.get?_eq_getElem?, List.getElem?_eq_getElem (by rw [hhtlen]; exact hstlt),
        ← List.getD_eq_getElem _ 0 (by rw [hhtlen]; exact hstlt)]
    rw [hgst]
    rfl

/-- C10 counterexample to the claim as stated: after `update()` on one
element, a further `insert()` *without* a new `update()` does not drive the
query out of range — every access stays in bounds (the claim asserts this
situation reaches an out-of-range access). -/
theorem C10_counterexample :
    (SpatialHashing.queryChecked
      (SpatialHashing.insertAll
        (SpatialHashing.update
          (SpatialHashing.insertAll (SpatialHashing.init 1000 1000) [⟨⟨1, 0⟩, ⟨0, 0⟩, 1⟩]) [])
        [⟨⟨2, 0⟩, ⟨0, 0⟩, 1⟩])
      ⟨⟨1, 0⟩, ⟨0, 0⟩, 1⟩ (DistancePred ⟨1, 0⟩ 10) 1000).isSome = true := by
  with_unfolding_all decide

/-- C10 witness: the after-`clear()` part of the amended statement applied
to a concrete one-element index (stale bucket non-empty, element vector
empty: the query's element access is out of range, modelled `none`). -/
theorem C10_query_safety_witness :
    SpatialHashing.queryChecked
        (SpatialHashing.clear (SpatialHashing.update
          (SpatialHashing.insertAll (SpatialHashing.init 1000 1000) [⟨⟨1, 0⟩, ⟨0, 0⟩, 1⟩]) []))
        ⟨⟨1, 0⟩, ⟨0, 0⟩, 1⟩ (DistancePred ⟨1, 0⟩ 10) 1 = none :=
  C10_query_safety.2.2 _ [] _ _ 1 (by decide) (by with_unfolding_all decide)

namespace BinLattice

lemma build_bins (W H BINS CAP : ℕ) :
    ∀ (bs : List Boid) (s₀ s : State),
      bs.foldlM (addBoid W H BINS CAP) s₀ = some s →
      ∀ u v, s.bins u v = s₀.bins u v ++ bs.filter (fun b =>
        binIndex W BINS b.position.x == u && binIndex H BINS b.position.y == v) := by
  intro bs
  induction bs with
  | nil =>
    intro s₀ s hfold u v
    rw [List.foldlM_nil] at hfold
    cases hfold
    simp
  | cons b bs ih =>
    intro s₀ s hfold u v
    rw [List.foldlM_cons] at hfold
    obtain ⟨s₁, hs₁, hrest⟩ := Option.bind_eq_some.mp hfold
    unfold addBoid at hs₁
    by_cases hcond : binIndex W BINS b.position.x < BINS ∧
        binIndex H BINS b.position.y < BINS ∧
        (s₀.bins (binIndex W BINS b.position.x) (binIndex H BINS b.position.y)).length < CAP
    · rw [if_pos hcond] at hs₁
      cases hs₁
      rw [ih _ _ hrest u v]
      show (if u = binIndex W BINS b.position.x ∧ v = binIndex H BINS b.position.y then
          s₀.bins u v ++ [b] else s₀.bins u v) ++ _ = _
      rw [List.filter_cons]
      by_cases hc : u = binIndex W BINS b.position.x ∧ v = binIndex H BINS b.position.y
      · rw [if_pos hc]
        have hb : (binIndex W BINS b.position.x == u &&
            binIndex H BINS b.position.y == v) = true := by
          simp [beq_iff_eq]
          exact ⟨hc.1.symm, hc.2.symm⟩
        rw [hb]
        simp
      · rw [if_neg hc]
        have hb : (binIndex W BINS b.position.x == u &&
            binIndex H BINS b.position.y == v) = false := by
          rw [Bool.and_eq_false_iff]
          by_cases h1 : binIndex W BINS b.position.x = u
          · right
            rw [beq_eq_false_iff_ne]
            intro h2
            exact hc ⟨h1.symm, h2.symm⟩
          · left
            rw [beq_eq_false_iff_ne]
            exact h1
        rw [hb]
        simp
    · rw [if_neg hcond] at hs₁
      cases hs₁

lemma build_mem_inbounds (W H BINS CAP : ℕ) :
    ∀ (bs : List Boid) (s₀ s : State),
      bs.foldlM (addBoid W H BINS CAP) s₀ = some s →
      ∀ b ∈ bs, binIndex W BINS b.position.x < BINS ∧ binIndex H BINS b.position.y < BINS := by
  intro bs
  induction bs with
  | nil => intro s₀ s _ b hb; simp at hb
  | cons b bs ih =>
    intro s₀ s hfold x hx
    rw [List.foldlM_cons] at hfold
    obtain ⟨s₁, hs₁, hrest⟩ := Option.bind_eq_some.mp hfold
    rcases List.mem_cons.mp hx with hxb | hxs
    · subst hxb
      unfold addBoid at hs₁
      by_cases hcond : binIndex W BINS x.position.x < BINS ∧
          binIndex H BINS x.position.y < BINS ∧
          (s₀.bins (binIndex W BINS x.position.x) (binIndex H BINS x.position.y)).length < CAP
      · exact ⟨hcond.1, hcond.2.1⟩
      · rw [if_neg hcond] at hs₁
        cases hs₁
    · exact ih _ _ hrest x hxs

lemma mem_scanCells (W H BINS : ℕ) (p : Vec2) (c : ℕ × ℕ) :
    c ∈ scanCells W H BINS p ↔
      ∃ dx ∈ ([-1, 0, 1] : List ℤ), ∃ dy ∈ ([-1, 0, 1] : List ℤ),
        c = (offsetClamp BINS (binIndex W BINS p.x) dx,
             offsetClamp BINS (binIndex H BINS p.y) dy) := by
  unfold scanCells
  rw [List.mem_flatMap]
  constructor
  · rintro ⟨dx, hdx, hc⟩
    rw [List.mem_map] at hc
    obtain ⟨dy, hdy, hcc⟩ := hc
    exact ⟨dx, hdx, dy, hdy, hcc.symm⟩
  · rintro ⟨dx, hdx, dy, hdy, hcc⟩
    exact ⟨dx, hdx, List.mem_map.mpr ⟨dy, hdy, hcc.symm⟩⟩

lemma floor_le_floor_add_one {a b : ℚ} (hab : a - b < 1) : ⌊a⌋ ≤ ⌊b⌋ + 1 := by
  have hb1 : b < (⌊b⌋ : ℚ) + 1 := Int.lt_floor_add_one b
  have ha : a < ((⌊b⌋ + 2 : ℤ) : ℚ) := by
    push_cast
    linarith
  have := Int.floor_lt.mpr ha
  omega

lemma axis_scanned (DIM BINS : ℕ) (hcs0 : 0 < DIM / BINS) (hB64 : BINS < sizeTMod)
    (px cx : ℚ) (hcx : 0 ≤ cx) (hpi : binIndex DIM BINS px < BINS)
    (hdist : (px - cx) * (px - cx) < ((DIM / BINS : ℕ) : ℚ) * ((DIM / BINS : ℕ) : ℚ)) :
    ∃ d ∈ ([-1, 0, 1] : List ℤ),
      offsetClamp BINS (binIndex DIM BINS cx) d = binIndex DIM BINS px := by
  set cs : ℚ := ((DIM / BINS : ℕ) : ℚ) with hcsdef
  have hcsq : (0 : ℚ) < cs := by
    rw [hcsdef]
    exact_mod_cast hcs0
  have habs : |px - cx| < cs := by
    have hsq : |px - cx| ^ 2 < cs ^ 2 := by
      rw [sq_abs, pow_two, pow_two]
      exact hdist
    exact lt_of_pow_lt_pow_left₀ 2 (le_of_lt hcsq) hsq
  have hdiv1 : px / cs - cx / cs < 1 := by
    rw [div_sub_div_same, div_lt_one hcsq]
    calc px - cx ≤ |px - cx| := le_abs_self _
      _ < cs := habs
  have hdiv2 : cx / cs - px / cs < 1 := by
    rw [div_sub_div_same, div_lt_one hcsq]
    calc cx - px ≤ |px - cx| := by rw [abs_sub_comm]; exact le_abs_self _
      _ < cs := habs
  have hf1 : ⌊px / cs⌋ ≤ ⌊cx / cs⌋ + 1 := floor_le_floor_add_one hdiv1
  have hf2 : ⌊cx / cs⌋ ≤ ⌊px / cs⌋ + 1 := floor_le_floor_add_one hdiv2
  have hfc0 : 0 ≤ ⌊cx / cs⌋ := Int.le_floor.mpr (by positivity)
  have hci : (binIndex DIM BINS cx : ℤ) = ⌊cx / cs⌋ := Int.toNat_of_nonneg hfc0
  rcases Int.lt_or_le ⌊px / cs⌋ 0 with hneg | hpos
  · -- floor of the point coordinate is negative: its bin index is 0 and so is the centre's
    have hpix : binIndex DIM BINS px = 0 := by
      unfold binIndex
      rw [← hcsdef]
      omega
    have hfc : ⌊cx / cs⌋ = 0 := by omega
    refine ⟨0, by simp, ?_⟩
    rw [hpix, offsetClamp_zero BINS _ (by omega)]
    have : binIndex DIM BINS cx = 0 := by omega
    rw [this]
    omega
  · have hpix : (binIndex DIM BINS px : ℤ) = ⌊px / cs⌋ := Int.toNat_of_nonneg hpos
    refine ⟨⌊px / cs⌋ - ⌊cx / cs⌋, ?_, ?_⟩
    · have hd : ⌊px / cs⌋ - ⌊cx / cs⌋ = -1 ∨ ⌊px / cs⌋ - ⌊cx / cs⌋ = 0 ∨
          ⌊px / cs⌋ - ⌊cx / cs⌋ = 1 := by omega
      rcases hd with h | h | h <;> rw [h] <;> simp
    · unfold offsetClamp
      have hsum : (binIndex DIM BINS cx : ℤ) + (⌊px / cs⌋ - ⌊cx / cs⌋) =
          (binIndex DIM BINS px : ℤ) := by omega
      rw [hsum, Int.emod_eq_of_lt (by omega) (by exact_mod_cast by omega)]
      omega

end BinLattice

lemma count_flatMap_le_one {α β : Type} [DecidableEq α] [DecidableEq β]
    (cells : List α) (f : α → List β) (bb : β) (key : α)
    (hkey : ∀ x ∈ cells, bb ∈ f x → x = key)
    (hcnt : ∀ x, (f x).count bb ≤ 1)
    (hkc : cells.count key ≤ 1) :
    (cells.flatMap f).count bb ≤ 1 := by
  induction cells with
  | nil => simp
  | cons c cs ih =>
    rw [List.flatMap_cons, List.count_append]
    by_cases hc : c = key
    · subst hc
      have hnot : (cs.flatMap f).count bb = 0 := by
        apply List.count_eq_zero_of_not_mem
        intro hmem
        rw [List.mem_flatMap] at hmem
        obtain ⟨x, hx, hbx⟩ := hmem
        have hx' : x = c := hkey x (by simp [hx]) hbx
        subst hx'
        rw [List.count_cons_self] at hkc
        have hz : cs.count x = 0 := by omega
        exact absurd hx (List.count_eq_zero.mp hz)
      rw [hnot]
      have := hcnt c
      omega
    · have hz : (f c).count bb = 0 := by
        apply List.count_eq_zero_of_not_mem
        intro hbm
        exact hc (hkey c (by simp) hbm)
      rw [hz]
      have hkc' : cs.count key ≤ 1 := by
        rw [List.count_cons_of_ne (fun h => hc h.symm)] at hkc
        exact hkc
      have := ih (fun x hx hbx => hkey x (by simp [hx]) hbx) hkc'
      omega

set_option maxRecDepth 8192 in
/-- C1 counterexample to "no element reported more than once": on the
program's lattice (`1000×1000`, `20` bins, capacity `100`), with the single
point `(975, 25)` (cell `(19, 0)`, the grid's last column), the query at
`(975, 25)` with radius `10` returns the point twice — the centre cell's
`dx = +1` neighbour clamps back onto column `19`, so bin `(19, 0)` is
scanned twice. -/
theorem C1_counterexample :
    BinLattice.queryBuilt 1000 1000 20 100 [⟨⟨975, 25⟩⟩] ⟨975, 25⟩ 10 =
      [⟨⟨975, 25⟩⟩, ⟨⟨975, 25⟩⟩] ∧
    (BinLattice.queryBuilt 1000 1000 20 100 [⟨⟨975, 25⟩⟩] ⟨975, 25⟩ 10).count ⟨⟨975, 25⟩⟩ =
      2 := by
  with_unfolding_all decide

/-- C1 (amended): for every point set inserted in-bounds and within per-bin
capacity, and every query with `0 ≤ radius ≤ cell size` issued from a
non-negative position, `query` returns exactly the subset of P at squared
Euclidean distance strictly below `radius²` — no false negatives, no false
positives.  Elements can however be reported more than once when the clamped
3×3 scan visits their cell twice (centre cell in the grid's last row or
column, or out of range); when the centre cell is at least one cell away
from every grid edge and P has no duplicates, each element is reported at
most once. -/
theorem C1_grid_query (W H BINS CAP : ℕ) (P : List Boid) (c : Vec2) (r : ℚ)
    (hB64 : BINS < BinLattice.sizeTMod)
    (hcsx : 0 < W / BINS) (hcsy : 0 < H / BINS)
    (hbuild : (BinLattice.buildState W H BINS CAP P).isSome = true)
    (hcx : 0 ≤ c.x) (hcy : 0 ≤ c.y)
    (hr0 : 0 ≤ r) (hrx : r ≤ ((W / BINS : ℕ) : ℚ)) (hry : r ≤ ((H / BINS : ℕ) : ℚ)) :
    (∀ bb : Boid, bb ∈ BinLattice.queryBuilt W H BINS CAP P c r ↔
      bb ∈ P ∧ (bb.position.sub c).lengthSquared < r * r) ∧
    (P.Nodup →
      1 ≤ BinLattice.binIndex W BINS c.x → BinLattice.binIndex W BINS c.x ≤ BINS - 2 →
      1 ≤ BinLattice.binIndex H BINS c.y → BinLattice.binIndex H BINS c.y ≤ BINS - 2 →
      ∀ bb : Boid, (BinLattice.queryBuilt W H BINS CAP P c r).count bb ≤ 1) := by
  obtain ⟨s, hs⟩ := Option.isSome_iff_exists.mp hbuild
  have hqb : BinLattice.queryBuilt W H BINS CAP P c r = BinLattice.query W H BINS s c r := by
    unfold BinLattice.queryBuilt
    rw [hs]
    rfl
  have hbins : ∀ u v, s.bins u v = P.filter (fun b =>
      BinLattice.binIndex W BINS b.position.x == u &&
      BinLattice.binIndex H BINS b.position.y == v) := by
    intro u v
    have h := BinLattice.build_bins W H BINS CAP P BinLattice.emptyState s hs u v
    simpa [BinLattice.emptyState] using h
  have hmemq : ∀ bb : Boid, bb ∈ BinLattice.query W H BINS s c r ↔
      ∃ cell ∈ BinLattice.scanCells W H BINS c,
        bb ∈ s.bins cell.1 cell.2 ∧ (bb.position.sub c).lengthSquared < r * r := by
    intro bb
    unfold BinLattice.query
    rw [List.mem_flatMap]
    constructor
    · rintro ⟨cell, hcell, hmem⟩
      rw [List.mem_filter] at hmem
      exact ⟨cell, hcell, hmem.1, of_decide_eq_true hmem.2⟩
    · rintro ⟨cell, hcell, hmem, hdist⟩
      exact ⟨cell, hcell, List.mem_filter.mpr ⟨hmem, decide_eq_true hdist⟩⟩
  constructor
  · intro bb
    rw [hqb, hmemq]
    constructor
    · rintro ⟨cell, hcell, hmem, hdist⟩
      rw [hbins, List.mem_filter] at hmem
      exact ⟨hmem.1, hdist⟩
    · rintro ⟨hP, hdist⟩
      have hin := BinLattice.build_mem_inbounds W H BINS CAP P BinLattice.emptyState s hs bb hP
      have hdist' : (bb.position.x - c.x) * (bb.position.x - c.x) +
          (bb.position.y - c.y) * (bb.position.y - c.y) < r * r := hdist
      have hrrx : r * r ≤ ((W / BINS : ℕ) : ℚ) * ((W / BINS : ℕ) : ℚ) :=
        mul_self_le_mul_self hr0 hrx
      have hrry : r * r ≤ ((H / BINS : ℕ) : ℚ) * ((H / BINS : ℕ) : ℚ) :=
        mul_self_le_mul_self hr0 hry
      have hdx : (bb.position.x - c.x) * (bb.position.x - c.x) <
          ((W / BINS : ℕ) : ℚ) * ((W / BINS : ℕ) : ℚ) := by
        nlinarith [mul_self_nonneg (bb.position.y - c.y)]
      have hdy : (bb.position.y - c.y) * (bb.position.y - c.y) <
          ((H / BINS : ℕ) : ℚ) * ((H / BINS : ℕ) : ℚ) := by
        nlinarith [mul_self_nonneg (bb.position.x - c.x)]
      obtain ⟨dx, hdxm, hdxe⟩ := BinLattice.axis_scanned W BINS hcsx hB64
        bb.position.x c.x hcx hin.1 hdx
      obtain ⟨dy, hdym, hdye⟩ := BinLattice.axis_scanned H BINS hcsy hB64
        bb.position.y c.y hcy hin.2 hdy
      refine ⟨(BinLattice.binIndex W BINS bb.position.x,
               BinLattice.binIndex H BINS bb.position.y), ?_, ?_, hdist⟩
      · rw [BinLattice.mem_scanCells]
        exact ⟨dx, hdxm, dy, hdym, by rw [hdxe, hdye]⟩
      · rw [hbins, List.mem_filter]
        exact ⟨hP, by simp⟩
  · intro hnd h1x h2x h1y h2y bb
    rw [hqb]
    have hoxm : BinLattice.offsetClamp BINS (BinLattice.binIndex W BINS c.x) (-1) =
        BinLattice.binIndex W BINS c.x - 1 := by
      unfold BinLattice.offsetClamp
      rw [Int.emod_eq_of_lt (by omega) (by omega)]
      omega
    have hox0 : BinLattice.offsetClamp BINS (BinLattice.binIndex W BINS c.x) 0 =
        BinLattice.binIndex W BINS c.x := by
      unfold BinLattice.offsetClamp
      rw [add_zero, Int.emod_eq_of_lt (by omega) (by omega)]
      omega
    have hoxp : BinLattice.offsetClamp BINS (BinLattice.binIndex W BINS c.x) 1 =
        BinLattice.binIndex W BINS c.x + 1 := by
      unfold BinLattice.offsetClamp
      rw [Int.emod_eq_of_lt (by omega) (by omega)]
      omega
    have hoym : BinLattice.offsetClamp BINS (BinLattice.binIndex H BINS c.y) (-1) =
        BinLattice.binIndex H BINS c.y - 1 := by
      unfold BinLattice.offsetClamp
      rw [Int.emod_eq_of_lt (by omega) (by omega)]
      omega
    have hoy0 : BinLattice.offsetClamp BINS (BinLattice.binIndex H BINS c.y) 0 =
        BinLattice.binIndex H BINS c.y := by
      unfold BinLattice.offsetClamp
      rw [add_zero, Int.emod_eq_of_lt (by omega) (by omega)]
      omega
    have hoyp : BinLattice.offsetClamp BINS (BinLattice.binIndex H BINS c.y) 1 =
        BinLattice.binIndex H BINS c.y + 1 := by
      unfold BinLattice.offsetClamp
      rw [Int.emod_eq_of_lt (by omega) (by omega)]
      omega
    have hsc : BinLattice.scanCells W H BINS c =
        [(BinLattice.binIndex W BINS c.x - 1, BinLattice.binIndex H BINS c.y - 1),
         (BinLattice.binIndex W BINS c.x - 1, BinLattice.binIndex H BINS c.y),
         (BinLattice.binIndex W BINS c.x - 1, BinLattice.binIndex H BINS c.y + 1),
         (BinLattice.binIndex W BINS c.x, BinLattice.binIndex H BINS c.y - 1),
         (BinLattice.binIndex W BINS c.x, BinLattice.binIndex H BINS c.y),
         (BinLattice.binIndex W BINS c.x, BinLattice.binIndex H BINS c.y + 1),
         (BinLattice.binIndex W BINS c.x + 1, BinLattice.binIndex H BINS c.y - 1),
         (BinLattice.binIndex W BINS c.x + 1, BinLattice.binIndex H BINS c.y),
         (BinLattice.binIndex W BINS c.x + 1, BinLattice.binIndex H BINS c.y + 1)] := by
      unfold BinLattice.scanCells
      simp only [List.flatMap_cons, List.flatMap_nil, List.map_cons, List.map_nil,
        List.append_nil, List.cons_append, List.nil_append]
      rw [hoxm, hox0, hoxp, hoym, hoy0, hoyp]
    unfold BinLattice.query
    rw [hsc]
    have hcells_nodup : ([(BinLattice.binIndex W BINS c.x - 1, BinLattice.binIndex H BINS c.y - 1),
         (BinLattice.binIndex W BINS c.x - 1, BinLattice.binIndex H BINS c.y),
         (BinLattice.binIndex W BINS c.x - 1, BinLattice.binIndex H BINS c.y + 1),
         (BinLattice.binIndex W BINS c.x, BinLattice.binIndex H BINS c.y - 1),
         (BinLattice.binIndex W BINS c.x, BinLattice.binIndex H BINS c.y),
         (BinLattice.binIndex W BINS c.x, BinLattice.binIndex H BINS c.y + 1),
         (BinLattice.binIndex W BINS c.x + 1, BinLattice.binIndex H BINS c.y - 1),
         (BinLattice.binIndex W BINS c.x + 1, BinLattice.binIndex H BINS c.y),
         (BinLattice.binIndex W BINS c.x + 1, BinLattice.binIndex H BINS c.y + 1)] :
        List (ℕ × ℕ)).Nodup := by
      simp [Prod.ext_iff]
      omega
    apply count_flatMap_le_one _ _ _
      (BinLattice.binIndex W BINS bb.position.x, BinLattice.binIndex H BINS bb.position.y)
    · intro x hx hbx
      rw [List.mem_filter, hbins, List.mem_filter] at hbx
      have hb1 := hbx.1.2
      rw [Bool.and_eq_true, beq_iff_eq, beq_iff_eq] at hb1
      rw [Prod.ext_iff]
      exact ⟨hb1.1.symm, hb1.2.symm⟩
    · intro x
      have hsub1 : ((s.bins x.1 x.2).filter fun b =>
          decide ((b.position.sub c).lengthSquared < r * r)).Sublist (s.bins x.1 x.2) :=
        List.filter_sublist _
      have hsub2 : (s.bins x.1 x.2).Sublist P := by
        rw [hbins]
        exact List.filter_sublist _
      calc ((s.bins x.1 x.2).filter fun b =>
            decide ((b.position.sub c).lengthSquared < r * r)).count bb
          ≤ (s.bins x.1 x.2).count bb := hsub1.count_le bb
        _ ≤ P.count bb := hsub2.count_le bb
        _ ≤ 1 := List.nodup_iff_count_le_one.mp hnd bb
    · exact List.nodup_iff_count_le_one.mp hcells_nodup _

/-- C1 witness: the spec's own scenario — world `1000×1000`, `20` bins
(cell size `50`), the single point `(500, 500)`, query `((500, 500), 10)` —
instantiating the membership characterisation at the stored point. -/
theorem C1_grid_query_witness :
    ⟨⟨500, 500⟩⟩ ∈ BinLattice.queryBuilt 1000 1000 20 100 [⟨⟨500, 500⟩⟩] ⟨500, 500⟩ 10 ↔
      (⟨⟨500, 500⟩⟩ : Boid) ∈ [(⟨⟨500, 500⟩⟩ : Boid)] ∧
        ((⟨⟨500, 500⟩⟩ : Boid).position.sub ⟨500, 500⟩).lengthSquared < 10 * 10 :=
  (C1_grid_query 1000 1000 20 100 [⟨⟨500, 500⟩⟩] ⟨500, 500⟩ 10
    (by decide) (by decide) (by decide) (by with_unfolding_all decide)
    (by with_unfolding_all decide) (by with_unfolding_all decide)
    (by with_unfolding_all decide) (by with_unfolding_all decide)
    (by with_unfolding_all decide)).1 ⟨⟨500, 500⟩⟩
